import Mathlib

/-!
# Verification of the raumata link router and label placer

This file is a shallow embedding, in Lean 4, of the link-routing and
label-placement core of the raumata network-map renderer (Go), together
with theorems about the embedded code.

Modelling conventions:

* Go float32 values are modelled as exact rationals.  Every float
  quantity manipulated by the router is produced from small integers by
  additions, halvings and divisions that are exact at the magnitudes
  involved; comments mark each point where the model commits to exactness.
* Go machine integers (int, int16) are modelled as Int.  None of the
  verified properties depends on wrap-around behaviour.
* Go maps are modelled as association lists.  Wherever the original
  code iterates over a map (an operation with unspecified order in Go),
  the embedded function takes the iteration order as an explicit list
  parameter, so that theorems quantify over every order the runtime
  could produce.
* Fallible code returns Except/Option: a Go panic becomes Except.error,
  a nil result becomes none.
-/

set_option maxHeartbeats 1000000

/- Mathlib seals the core rational operations; re-open them so that
concrete executions of the embedded code reduce under `decide` (the
kernel ignores reducibility attributes, so this changes nothing about
what is provable). -/
set_option allowUnsafeReducibility true in
attribute [semireducible] Rat.add Rat.sub Rat.mul Rat.div Rat.neg Rat.inv

namespace Raumata

abbrev NodeId := String
abbrev LinkId := String

/-! ## Association lists standing for Go maps -/

/-- A Go map modelled as an association list with at most one entry per
key (all writes go through AList.insert). -/
abbrev AList (K V : Type) : Type := List (K × V)

namespace AList

variable {K V : Type} [DecidableEq K]

/-- Go map read returning an Option (the "v, ok := m[k]" form). -/
def find? : AList K V → K → Option V
  | [], _ => none
  | (k', v) :: rest, k => if k' = k then some v else find? rest k

/-- Go map read with the zero value as default (the "v := m[k]" form). -/
def findD (m : AList K V) (k : K) (d : V) : V :=
  (m.find? k).getD d

/-- Go map write: overwrite the existing entry or append a new one. -/
def insert : AList K V → K → V → AList K V
  | [], k, v => [(k, v)]
  | (k', v') :: rest, k, v =>
    if k' = k then (k', v) :: rest else (k', v') :: insert rest k v

/-- Go delete. -/
def erase : AList K V → K → AList K V
  | [], _ => []
  | (k', v') :: rest, k => if k' = k then rest else (k', v') :: erase rest k

/-- Whether the key is present (the "_, ok := m[k]" form). -/
def isKey (m : AList K V) (k : K) : Bool :=
  (m.find? k).isSome



end AList

/-! ## Grid primitives (internal/grid.go) -/

/-- internal.GridPos: a position in the routing grid.  Go uses int16;
modelled as Int (no verified property depends on wrap-around). -/
structure GridPos where
  X : Int
  Y : Int
deriving DecidableEq

instance : Inhabited GridPos := ⟨⟨0, 0⟩⟩

/-- GridPos.Min from internal/grid.go. -/
def GridPos.minPos (g p : GridPos) : GridPos :=
  { X := if g.X < p.X then g.X else p.X
    Y := if g.Y < p.Y then g.Y else p.Y }

/-- GridPos.Max from internal/grid.go. -/
def GridPos.maxPos (g p : GridPos) : GridPos :=
  { X := if g.X > p.X then g.X else p.X
    Y := if g.Y > p.Y then g.Y else p.Y }

/-- GridPos.ChebyshevDistance: max(|ax-bx|, |ay-by|), returned by the Go
code as a float32 (exact, as the inputs are int16). -/
def GridPos.chebyshevDistance (a b : GridPos) : ℚ :=
  let dx := a.X - b.X
  let dy := a.Y - b.Y
  let dx := if dx < 0 then dx * (-1) else dx
  let dy := if dy < 0 then dy * (-1) else dy
  if dx > dy then (dx : ℚ) else (dy : ℚ)


/-- vec.Vec2 restricted to the rational model (float32 components). -/
structure Vec2 where
  X : ℚ
  Y : ℚ
deriving DecidableEq

instance : Inhabited Vec2 := ⟨⟨0, 0⟩⟩

/-- GridPos.ToVec. -/
def GridPos.toVec (g : GridPos) : Vec2 :=
  ⟨(g.X : ℚ), (g.Y : ℚ)⟩


/-- Vec2.Sub. -/
def Vec2.sub (a b : Vec2) : Vec2 :=
  ⟨a.X - b.X, a.Y - b.Y⟩

/-- vec.Polyline. -/
abbrev Polyline := List Vec2

/-- Inner loop of Polyline.Fix: walk the remaining points keeping those
different from the previous kept point.  The Go code also drops points
with a NaN component; NaN is unrepresentable in the rational model (all
route coordinates originate from integer grid positions), so that test
is omitted. -/
def fixLoop (prev : Vec2) : List Vec2 → List Vec2
  | [] => []
  | p :: rest => if p ≠ prev then p :: fixLoop p rest else fixLoop prev rest

/-- vec.Polyline.Fix: remove zero-length segments (consecutive duplicate
points). -/
def Polyline.fix : Polyline → Polyline
  | [] => []
  | p :: rest => p :: fixLoop p rest

/-! ## Float-to-integer conversion -/

/-- Go conversion of a floating-point value to an integer type: the
fractional part is discarded, i.e. truncation toward zero. -/
def f32ToInt (q : ℚ) : Int :=
  if 0 ≤ q then ⌊q⌋ else -⌊-q⌋

/-! ## The priority queue (internal/priority_queue.go + container/heap)

internal.PriorityQueue is a thin wrapper around Go's container/heap on a
slice ordered by integer priority (strictly-less comparison).  The heap
algorithms (up/down sift) are transcribed from the Go standard library
so that pop order — including tie-breaking — matches the original
exactly. -/

structure MinHeap (α : Type) where
  data : List (α × Int)

namespace MinHeap

variable {α : Type}

/-- minHeap.Less i j (Go: priority i < priority j).  Out-of-range
indices cannot occur in the call sites below. -/
def lessAt (h : MinHeap α) (i j : Nat) : Bool :=
  match h.data.get? i, h.data.get? j with
  | some a, some b => decide (a.2 < b.2)
  | _, _ => false

/-- minHeap.Swap. -/
def swapAt (h : MinHeap α) (i j : Nat) : MinHeap α :=
  match h.data.get? i, h.data.get? j with
  | some a, some b => ⟨(h.data.set i b).set j a⟩
  | _, _ => h

/-- container/heap up (sift-up), written with an explicit iteration
budget so the recursion is structural.  The parent index (j - 1) / 2
strictly decreases across iterations, so the budget j + 1 supplied by
`up` never runs out: the cutoff branch is unreachable and the function
computes exactly the Go loop. -/
def upAux (fuel : Nat) (h : MinHeap α) (j : Nat) : MinHeap α :=
  match fuel with
  | 0 => h
  | fuel + 1 =>
    if (j - 1) / 2 = j ∨ ¬(h.lessAt j ((j - 1) / 2)) then h
    else upAux fuel (h.swapAt ((j - 1) / 2) j) ((j - 1) / 2)

def up (h : MinHeap α) (j : Nat) : MinHeap α := upAux (j + 1) h j

/-- container/heap down (sift-down), with the same structural-budget
treatment: the index i at least doubles each iteration while iteration
requires 2 * i + 1 < n, so the budget n - i never runs out (when it
would reach 0, n ≤ i and the loop would stop anyway).  The Go source
also guards against int overflow of 2*i+1, impossible for Nat. -/
def downAux (fuel : Nat) (h : MinHeap α) (i n : Nat) : MinHeap α :=
  match fuel with
  | 0 => h
  | fuel + 1 =>
    if n ≤ 2 * i + 1 then h
    else if 2 * i + 2 < n ∧ h.lessAt (2 * i + 2) (2 * i + 1) then
      (if h.lessAt (2 * i + 2) i then downAux fuel (h.swapAt i (2 * i + 2)) (2 * i + 2) n else h)
    else
      (if h.lessAt (2 * i + 1) i then downAux fuel (h.swapAt i (2 * i + 1)) (2 * i + 1) n else h)

def down (h : MinHeap α) (i n : Nat) : MinHeap α := downAux (n - i) h i n

/-- PriorityQueue.Push: append then sift up from the last index. -/
def push (h : MinHeap α) (v : α) (priority : Int) : MinHeap α :=
  up ⟨h.data ++ [(v, priority)]⟩ h.data.length

/-- PriorityQueue.Empty. -/
def isEmptyQ (h : MinHeap α) : Bool :=
  h.data.isEmpty

/-- PriorityQueue.Pop: container/heap Pop = swap the root to the end,
sift down over the shortened prefix, then remove the last element. -/
def pop (h : MinHeap α) : Option (α × MinHeap α) :=
  match h.data with
  | [] => none
  | _ :: _ =>
    let n := h.data.length - 1
    let h2 := (h.swapAt 0 n).down 0 n
    match h2.data.get? n with
    | some x => some (x.1, ⟨h2.data.take n⟩)
    | none => none



end MinHeap

/-! ## Topology (topology.go)

Go stores nodes and links behind pointers that may be nil; NewLinkRouter
skips nil entries and the routing passes never create them, so the model
uses plain values.  Link.Via entries ([2]int16 pairs in Go) are modelled
directly as GridPos. -/

structure NodeExtents where
  Width : ℚ
  Height : ℚ
deriving DecidableEq

structure Node where
  Id : NodeId
  Pos : Option GridPos
  Label : String
  LabelAt : String
  Extents : Option NodeExtents
deriving DecidableEq

instance : Inhabited Node := ⟨⟨"", none, "", "", none⟩⟩

structure Link where
  Id : LinkId
  From : NodeId
  To : NodeId
  Via : List GridPos
  Route : Polyline
deriving DecidableEq

structure Topology where
  Nodes : AList NodeId Node
  Links : AList LinkId Link
deriving DecidableEq

/-- Topology.GetNode (nil pointer becomes none). -/
def Topology.GetNode (t : Topology) (id : NodeId) : Option Node :=
  t.Nodes.find? id

/-- Topology.GetLink. -/
def Topology.GetLink (t : Topology) (id : LinkId) : Option Link :=
  t.Links.find? id

/-- Modelled from the spec: Node.IsMultiCell is not among the provided
sources (only its callers are).  Per the spec, a node with rectangular
extents spanning more than one cell is a multi-cell node. -/
def Node.IsMultiCell (n : Node) : Bool :=
  match n.Extents with
  | none => false
  | some e => e.Width > 1 || e.Height > 1

/-- Modelled from the spec: Node.GetExtents is not among the provided
sources.  Per the topology documentation ("The node will be centered at
pos"), the extents rectangle is pos ± (width/2, height/2). -/
def Node.GetExtents (n : Node) : Vec2 × Vec2 :=
  match n.Pos, n.Extents with
  | some p, some e =>
    (⟨(p.X : ℚ) - e.Width / 2, (p.Y : ℚ) - e.Height / 2⟩,
     ⟨(p.X : ℚ) + e.Width / 2, (p.Y : ℚ) + e.Height / 2⟩)
  | some p, none => (p.toVec, p.toVec)
  | none, _ => (⟨0, 0⟩, ⟨0, 0⟩)

/-- The list lo, lo+1, ..., hi-1: a Go "for x := lo; x < hi; x++" loop. -/
def intRange (lo hi : Int) : List Int :=
  (List.range (hi - lo).toNat).map (fun k => lo + (k : Int))

/-- The footprint cells of a multi-cell extents rectangle, in the
iteration order of the Go double loop (x outer, y inner). -/
def footprintCells (minX minY maxX maxY : Int) : List GridPos :=
  (intRange minX maxX).flatMap (fun x => (intRange minY maxY).map (fun y => GridPos.mk x y))

/-! ## Compass directions (direction.go) -/

/-- The direction enum; iota constants as in the Go source. -/
abbrev direction := Int

def directionNone : direction := 0
def directionN : direction := 1
def directionNE : direction := 2
def directionE : direction := 3
def directionSE : direction := 4
def directionS : direction := 5
def directionSW : direction := 6
def directionW : direction := 7
def directionNW : direction := 8

/-- strings.ToLower modelled on the character list (the labels involved
are ASCII). -/
def strToLower (s : String) : String := String.mk (s.data.map Char.toLower)

def directionFromString (s : String) : direction :=
  match strToLower s with
  | "n" | "north" => directionN
  | "ne" | "northeast" | "north-east" => directionNE
  | "e" | "east" => directionE
  | "se" | "southeast" | "south-east" => directionSE
  | "s" | "south" => directionS
  | "sw" | "southwest" | "south-west" => directionSW
  | "w" | "west" => directionW
  | "nw" | "northwest" | "north-west" => directionNW
  | _ => directionNone

def direction.Opposite (d : direction) : direction :=
  if d = directionN then directionS
  else if d = directionNE then directionSW
  else if d = directionE then directionW
  else if d = directionSE then directionNW
  else if d = directionS then directionN
  else if d = directionSW then directionNE
  else if d = directionW then directionE
  else if d = directionNW then directionSE
  else d

/-- direction.AsVec (Y grows southward). -/
def direction.AsVec (d : direction) : Vec2 :=
  if d = directionN then ⟨0, -1⟩
  else if d = directionNE then ⟨1, -1⟩
  else if d = directionE then ⟨1, 0⟩
  else if d = directionSE then ⟨1, 1⟩
  else if d = directionS then ⟨0, 1⟩
  else if d = directionSW then ⟨-1, 1⟩
  else if d = directionW then ⟨-1, 0⟩
  else if d = directionNW then ⟨-1, -1⟩
  else ⟨0, 0⟩

/-- direction.moveGridPos; the Go int16(v.X) conversions truncate. -/
def direction.moveGridPos (d : direction) (p : GridPos) : GridPos :=
  let v := d.AsVec
  ⟨p.X + f32ToInt v.X, p.Y + f32ToInt v.Y⟩

/-- direction.String. -/
def dirToString (d : direction) : String :=
  if d = directionN then "n"
  else if d = directionNE then "ne"
  else if d = directionE then "e"
  else if d = directionSE then "se"
  else if d = directionS then "s"
  else if d = directionSW then "sw"
  else if d = directionW then "w"
  else if d = directionNW then "nw"
  else ""

/-! ## LinkRouter state and construction (link_router.go) -/

/-- Cap on the number of iterations the search algorithm does. -/
def searchLimit : Nat := 8192

/-- Cap on the number of iterations the fix-point pass does. -/
def routeIterLimit : Nat := 32

/-- The weight to apply to the link-crossing penalty (the Go package
constant linkPenaltyWeight = 10.0). -/
def linkPenaltyWeight : ℚ := 10

structure LinkRouter where
  AvoidNodes : Bool
  AttachMultiCellsCardinal : Bool
  SpreadLinks : Bool
  Orthogonal : Bool
  topo : Topology
  nodes : AList GridPos NodeId
  nodeLabels : AList GridPos Bool
  linkMap : AList GridPos (List LinkId)
  extentMin : GridPos
  extentMax : GridPos
  linkPenaltyWeight : ℚ
deriving DecidableEq

def LinkRouter.addLink (r : LinkRouter) (pos : GridPos) (id : LinkId) : LinkRouter :=
  let curLinks := r.linkMap.findD pos []
  if id ∈ curLinks then r
  else
    { r with
      linkMap := r.linkMap.insert pos (curLinks ++ [id])
      extentMin := r.extentMin.minPos pos
      extentMax := r.extentMax.maxPos pos }

def LinkRouter.removeLink (r : LinkRouter) (pos : GridPos) (id : LinkId) : LinkRouter :=
  match r.linkMap.find? pos with
  | none => r
  | some curLinks =>
    let newList := curLinks.filter (fun lid => lid ≠ id)
    if newList.length > 0 then
      { r with linkMap := r.linkMap.insert pos newList }
    else
      { r with linkMap := r.linkMap.erase pos }

/-- addRoute registers every point of a path; int16(point.X) truncates. -/
def LinkRouter.addRoute (r : LinkRouter) (id : LinkId) (path : Polyline) : LinkRouter :=
  path.foldl (fun r point => r.addLink ⟨f32ToInt point.X, f32ToInt point.Y⟩ id) r

def LinkRouter.removeRoute (r : LinkRouter) (id : LinkId) (path : Polyline) : LinkRouter :=
  path.foldl (fun r point => r.removeLink ⟨f32ToInt point.X, f32ToInt point.Y⟩ id) r

def LinkRouter.moveRoute (r : LinkRouter) (id : LinkId) (oldPath newPath : Polyline) : LinkRouter :=
  (r.removeRoute id oldPath).addRoute id newPath

/-- The label-offset switch in the node loop of NewLinkRouter (matches
only the exact lowercase forms, unlike directionFromString). -/
def newRouterLabelAt (labelAt : String) (pos : GridPos) : GridPos :=
  match labelAt with
  | "n" => ⟨pos.X, pos.Y - 1⟩
  | "ne" => ⟨pos.X + 1, pos.Y - 1⟩
  | "e" => ⟨pos.X + 1, pos.Y⟩
  | "se" => ⟨pos.X + 1, pos.Y + 1⟩
  | "s" => ⟨pos.X, pos.Y + 1⟩
  | "sw" => ⟨pos.X - 1, pos.Y + 1⟩
  | "w" => ⟨pos.X - 1, pos.Y⟩
  | "nw" => ⟨pos.X - 1, pos.Y - 1⟩
  | _ => pos

/-- The extents update at the top of the node loop of NewLinkRouter. -/
def nodeStepExtents (r : LinkRouter) (setExtents : Bool) (pos : GridPos) : LinkRouter :=
  if setExtents = false then
    { r with extentMin := pos, extentMax := pos }
  else
    { r with extentMin := r.extentMin.minPos pos, extentMax := r.extentMax.maxPos pos }

/-- The multi-cell footprint registration of the node loop. -/
def nodeStepMulti (r : LinkRouter) (node : Node) : LinkRouter :=
  if node.IsMultiCell then
    match node.Extents with
    | some e =>
      if e.Width > 0 ∧ e.Height > 0 then
        let ext := node.GetExtents
        let minX := ⌈ext.1.X⌉
        let minY := ⌈ext.1.Y⌉
        let maxX := ⌈ext.2.X⌉
        let maxY := ⌈ext.2.Y⌉
        let r := (footprintCells minX minY maxX maxY).foldl
          (fun r p => { r with nodes := r.nodes.insert p node.Id }) r
        { r with
          extentMin := r.extentMin.minPos ⟨minX, minY⟩
          extentMax := r.extentMax.maxPos ⟨maxX, maxY⟩ }
      else r
    | none => r
  else r

/-- The label-cell registration at the bottom of the node loop. -/
def nodeStepLabel (r : LinkRouter) (node : Node) (pos : GridPos) : LinkRouter :=
  let labelAt := newRouterLabelAt node.LabelAt pos
  if labelAt ≠ pos then
    { r with
        nodeLabels := r.nodeLabels.insert labelAt true
        extentMin := r.extentMin.minPos labelAt
        extentMax := r.extentMax.maxPos labelAt }
  else r

/-- One iteration of the node loop of NewLinkRouter.  The Bool component
is the setExtents flag. -/
def newRouterNodeStep (st : LinkRouter × Bool) (node : Node) : LinkRouter × Bool :=
  match node.Pos with
  | none => st
  | some pos =>
    let r := nodeStepExtents st.1 st.2 pos
    let r := { r with nodes := r.nodes.insert pos node.Id }
    let r := nodeStepMulti r node
    (nodeStepLabel r node pos, true)

/-- One iteration of the link loop of NewLinkRouter. -/
def newRouterLinkStep (r : LinkRouter) (id : LinkId) (link : Link) : LinkRouter :=
  if link.Route.length > 0 then
    r.addRoute id link.Route
  else
    let r := link.Via.foldl (fun r via => r.addLink via id) r
    let r :=
      match r.topo.GetNode link.From with
      | some fromNode =>
        match fromNode.Pos with
        | some p => r.addLink p id
        | none => r
      | none => r
    match r.topo.GetNode link.To with
    | some toNode =>
      match toNode.Pos with
      | some p => r.addLink p id
      | none => r
    | none => r

/-- NewLinkRouter.  nodeOrder and linkOrder are the iteration orders of
the two Go map-range loops. -/
def NewLinkRouter (topo : Topology) (nodeOrder : List NodeId) (linkOrder : List LinkId) :
    LinkRouter :=
  let router : LinkRouter :=
    { AvoidNodes := true
      AttachMultiCellsCardinal := true
      SpreadLinks := true
      Orthogonal := false
      topo := topo
      nodes := []
      nodeLabels := []
      linkMap := []
      extentMin := ⟨0, 0⟩
      extentMax := ⟨0, 0⟩
      linkPenaltyWeight := linkPenaltyWeight }
  let st := nodeOrder.foldl
    (fun st id =>
      match topo.Nodes.find? id with
      | none => st
      | some node => newRouterNodeStep st node)
    (router, false)
  linkOrder.foldl
    (fun r id =>
      match topo.Links.find? id with
      | none => r
      | some link => newRouterLinkStep r id link)
    st.1

/-! ## Route finding (link_router.go, routeFinder) -/

/-- gridNode: a node in the implicit search graph — grid position,
travel direction, pending via count. -/
structure GridNode where
  gridPos : GridPos
  dirX : Int
  dirY : Int
  via : Int
deriving DecidableEq

instance : Inhabited GridNode := ⟨⟨⟨0, 0⟩, 0, 0, 0⟩⟩

/-- The route struct: link id, path, accumulated search weight. -/
structure Route where
  id : LinkId
  path : Polyline
  weight : ℚ
deriving DecidableEq

/-- routeFinder.  The Go field cameFrom is threaded explicitly through
the search functions below instead of living in the struct. -/
structure Finder where
  startNode : NodeId
  goalNode : NodeId
  goal : GridNode
  goalIsMulti : Bool
  vias : List GridPos
  linkId : LinkId
  router : LinkRouter

/-- routeFinder.getVia.  For n in [1, len] this is vias[len-n]; n = 0 or
n > len give ok=false.  A negative n would panic in Go (index out of
range) but is never produced: via counts start at len(vias) and only
decrease, stopping at 0. -/
def Finder.getVia (f : Finder) (n : Int) : Option GridPos :=
  if n = 0 ∨ n > (f.vias.length : Int) then none
  else f.vias.get? ((f.vias.length : Int) - n).toNat

/-- routeFinder.goalDistance: Chebyshev distance to the goal cell, or
for a multi-cell goal the minimum over its footprint computed by the
-1-sentinel fold of the Go double loop.  The nil-node branch is
unreachable (goalIsMulti is only set from an existing node). -/
def Finder.goalDistance (f : Finder) (fromNode : GridNode) : ℚ :=
  let frm := fromNode.gridPos
  if f.goalIsMulti then
    match f.router.topo.GetNode f.goalNode with
    | some goalNode =>
      let ext := goalNode.GetExtents
      let minX := ⌈ext.1.X⌉
      let minY := ⌈ext.1.Y⌉
      let maxX := ⌈ext.2.X⌉
      let maxY := ⌈ext.2.Y⌉
      (footprintCells minX minY maxX maxY).foldl
        (fun dist p =>
          let d := frm.chebyshevDistance p
          if dist < 0 ∨ d < dist then d else dist)
        (-1)
    | none => 0
  else
    frm.chebyshevDistance f.goal.gridPos

/-- The via adjustment inside the produce helper: a candidate landing on
the pending via has its via count decremented. -/
def Finder.adjustVia (f : Finder) (pos g : GridNode) : GridNode :=
  match f.getVia pos.via with
  | some via => if g.gridPos = via then { g with via := g.via - 1 } else g
  | none => g

/-- The produce helper inside routeFinder.neighbours. -/
def Finder.produceOne (f : Finder) (cameFrom : AList GridNode GridNode)
    (pos : GridNode) (g : GridNode) : List GridNode :=
  if g = pos then []
  else if cameFrom.find? pos = some g then []
  else
    let g := f.adjustVia pos g
    let nodeId := f.router.nodes.findD g.gridPos ""
    if g.gridPos = f.goal.gridPos ∨ nodeId = f.goalNode then
      if f.goalIsMulti && f.router.AttachMultiCellsCardinal then
        if g.dirX = 0 ∨ g.dirY = 0 then [g] else []
      else [g]
    else
      let gridPos := g.gridPos
      let inBounds : Bool :=
        gridPos.X ≥ f.router.extentMin.X && gridPos.X ≤ f.router.extentMax.X &&
        gridPos.Y ≥ f.router.extentMin.Y && gridPos.Y ≤ f.router.extentMax.Y
      let isNode := f.router.nodes.isKey gridPos
      let isNode := f.router.AvoidNodes && isNode
      let isLabel := f.router.nodeLabels.isKey gridPos
      if inBounds && !isNode && !isLabel then [g] else []

/-- routeFinder.neighbours, producing the neighbour list in the exact
order the Go callback would be invoked.  The cardinal step list mirrors
the Go dx-outer dy-inner loop (skipping the null and diagonal
directions); the diagonal list mirrors the second loop. -/
def Finder.neighbours (f : Finder) (cameFrom : AList GridNode GridNode)
    (pos : GridNode) : List GridNode :=
  let produce := f.produceOne cameFrom pos
  if pos.dirX ≠ 0 ∨ pos.dirY ≠ 0 then
    let straight := produce
      { pos with gridPos := ⟨pos.gridPos.X + pos.dirX, pos.gridPos.Y + pos.dirY⟩ }
    let turns :=
      if f.router.Orthogonal then
        if pos.dirX = 0 then
          produce { pos with dirY := 0, dirX := pos.dirY } ++
          produce { pos with dirY := 0, dirX := -pos.dirY }
        else
          produce { pos with dirX := 0, dirY := pos.dirX } ++
          produce { pos with dirX := 0, dirY := -pos.dirX }
      else
        (if pos.dirX = 0 then
          produce { pos with dirX := 1 } ++ produce { pos with dirX := -1 }
        else if pos.dirY ≠ 0 then
          produce { pos with dirX := 0 }
        else []) ++
        (if pos.dirY = 0 then
          produce { pos with dirY := 1 } ++ produce { pos with dirY := -1 }
        else if pos.dirX ≠ 0 then
          produce { pos with dirY := 0 }
        else [])
    straight ++ turns
  else
    let step := fun (d : Int × Int) =>
      produce { pos with
        dirX := d.1
        dirY := d.2
        gridPos := ⟨pos.gridPos.X + d.1, pos.gridPos.Y + d.2⟩ }
    let cards := ([(-1, 0), (0, -1), (0, 1), (1, 0)] : List (Int × Int)).flatMap step
    let diags :=
      if !f.router.Orthogonal then
        ([(-1, -1), (-1, 1), (1, -1), (1, 1)] : List (Int × Int)).flatMap step
      else []
    cards ++ diags

/-- The diminishing per-link penalty loop shared by the three penalty
sites in routeFinder.weight: every link other than the one being routed
adds 1/n, with n doubling afterwards. -/
def penLoop (linkId : LinkId) (links : List LinkId) (acc : ℚ × ℚ) : ℚ × ℚ :=
  links.foldl (fun acc l => if l ≠ linkId then (acc.1 + 1 / acc.2, acc.2 * 2) else acc) acc

/-- The addPenalty closure in routeFinder.weight: the spread penalty
for links occupying a cell beside the destination; its n restarts at 16
on every call, while the accumulated penalty is shared. -/
def addPenaltyF (f : Finder) (pen : ℚ) (at_ : GridPos) : ℚ :=
  if f.router.SpreadLinks = false then pen
  else (penLoop f.linkId (f.router.linkMap.findD at_ []) (pen, 16)).1

/-- The link-penalty accumulation of routeFinder.weight for a non-turn
step whose destination is not the goal: occupancy of the destination
cell, diagonal crossings (continuing with the same n), then the spread
penalties beside the destination. -/
def linkPenaltyFor (f : Finder) (fromNode toNode : GridNode) : ℚ :=
  let frm := fromNode.gridPos
  let toP := toNode.gridPos
  -- Penalty for links already occupying the destination cell.
  let links := f.router.linkMap.findD toP []
  let acc := penLoop f.linkId links (0, 1)
  -- Diagonal crossings: links present in both side cells.
  let acc :=
    if fromNode.dirX ≠ 0 ∧ fromNode.dirY ≠ 0 then
      let n1 : GridPos := ⟨frm.X + fromNode.dirX, frm.Y⟩
      let n2 : GridPos := ⟨frm.X, frm.Y + fromNode.dirY⟩
      let links1 := f.router.linkMap.findD n1 []
      let links2 := f.router.linkMap.findD n2 []
      let linksIntersection := links1.filter (fun l1 => l1 ≠ f.linkId ∧ l1 ∈ links2)
      penLoop f.linkId linksIntersection acc
    else acc
  let pen := acc.1
  let pen :=
    if toNode.dirX = 0 then
      let p1 := addPenaltyF f pen ⟨toP.X + 1, toP.Y + toNode.dirY⟩
      addPenaltyF f p1 ⟨toP.X - 1, toP.Y + toNode.dirY⟩
    else if toNode.dirY ≠ 0 then
      addPenaltyF f pen ⟨toP.X, toP.Y + toNode.dirY⟩
    else pen
  if toNode.dirY = 0 then
    let p1 := addPenaltyF f pen ⟨toP.X + toNode.dirX, toP.Y + 1⟩
    addPenaltyF f p1 ⟨toP.X + toNode.dirX, toP.Y - 1⟩
  else if toNode.dirX ≠ 0 then
    addPenaltyF f pen ⟨toP.X + toNode.dirX, toP.Y⟩
  else pen

/-- routeFinder.weight split into its two summands (dist, linkPenalty);
the returned weight is dist + linkPenalty * linkPenaltyWeight. -/
def Finder.weightParts (f : Finder) (cameFrom : AList GridNode GridNode)
    (fromNode toNode : GridNode) : ℚ × ℚ :=
  let frm := fromNode.gridPos
  let toP := toNode.gridPos
  let toNodeId := f.router.nodes.findD toP ""
  let dist := frm.chebyshevDistance toP
  if frm = toP then
    -- A turn: penalize more than single steps, and more still if the
    -- previous recorded step was also a turn.
    let dist : ℚ := 2
    match cameFrom.find? fromNode with
    | some prevNode => if prevNode.gridPos = fromNode.gridPos then (4, 0) else (dist, 0)
    | none => (dist, 0)
  else if toP ≠ f.goal.gridPos ∧ toNodeId ≠ f.goalNode then
    (dist, linkPenaltyFor f fromNode toNode)
  else
    (dist, 0)

/-- routeFinder.weight. -/
def Finder.weight (f : Finder) (cameFrom : AList GridNode GridNode)
    (fromNode toNode : GridNode) : ℚ :=
  let parts := f.weightParts cameFrom fromNode toNode
  parts.1 + parts.2 * f.router.linkPenaltyWeight

/-- The reconstruction loop of buildRoute.  The Option argument is the
Go (c, ok) pair; the fuel is the remaining iteration budget maxIter - i.
Running out of fuel with ok still true is the Go panic after the loop;
finding a self-loop is the panic inside it. -/
def buildLoop (cameFrom : AList GridNode GridNode) :
    Option GridNode → List GridPos → Nat → Except String (List GridPos)
  | none, path, _ => .ok path
  | some _, _, 0 => .error "buildRoute could not build route"
  | some c, path, fuel + 1 =>
    let path := path ++ [c.gridPos]
    match cameFrom.find? c with
    | some c2 =>
      if c2 = c then .error "Loop in path"
      else buildLoop cameFrom (some c2) path fuel
    | none => buildLoop cameFrom none path fuel

/-- routeFinder.buildRoute. -/
def Finder.buildRoute (f : Finder) (cameFrom : AList GridNode GridNode)
    (pos : GridNode) (weight : ℚ) : Except String (Option Route) :=
  let path := [pos.gridPos]
  match cameFrom.find? pos with
  | none => .ok none
  | some c =>
    let maxIter := cameFrom.length + 1
    match buildLoop cameFrom (some c) path maxIter with
    | .error e => .error e
    | .ok path =>
      let line : Polyline := Polyline.fix (path.reverse.map GridPos.toVec)
      .ok (some { id := f.linkId, path := line, weight := weight })

/-- A push onto the open set: the new accumulated weight g, the
heuristic h and the computed integer priority. -/
structure PushEv where
  g : ℚ
  h : ℚ
  pri : Int
deriving DecidableEq

/-- The mutable state of routeFinder.run.  The trace field records every
push performed (ghost instrumentation: nothing reads it). -/
structure SState where
  cameFrom : AList GridNode GridNode
  weights : AList GridNode ℚ
  openSet : MinHeap GridNode
  trace : List PushEv

/-- The neighbour-callback body in routeFinder.run. -/
def Finder.expandOne (f : Finder) (current : GridNode) (curWeight : ℚ)
    (st : SState) (n : GridNode) : SState :=
  let newWeight := curWeight + f.weight st.cameFrom current n
  let improved :=
    match st.weights.find? n with
    | none => true
    | some neighbourWeight => decide (newWeight < neighbourWeight)
  if improved then
    let h := f.goalDistance n + (n.via : ℚ)
    -- Multiply the priority by 100 to keep some of the precision from
    -- the weight calculation; the int conversion truncates.
    let priority := f32ToInt ((newWeight + h) * 100)
    { cameFrom := st.cameFrom.insert n current
      weights := st.weights.insert n newWeight
      openSet := st.openSet.push n priority
      trace := st.trace ++ [⟨newWeight, h, priority⟩] }
  else st

/-- One expansion of the search loop: compute the neighbour list, then
fold the callback over it.  (The callback never touches the cameFrom
entry of the current node — every produced neighbour differs from it —
so the list computed up front is the list Go produces lazily.) -/
def Finder.stepState (f : Finder) (current : GridNode) (curWeight : ℚ)
    (st : SState) : SState :=
  (f.neighbours st.cameFrom current).foldl (f.expandOne current curWeight) st

/-- The main loop of routeFinder.run; the fuel is searchLimit - iterNum. -/
def Finder.runLoop (f : Finder) : SState → Nat → SState × Except String (Option Route)
  | st, 0 => (st, .ok none)
  | st, fuel + 1 =>
    match st.openSet.pop with
    | none => (st, .ok none)
    | some (current, openSet) =>
      let st := { st with openSet := openSet }
      let curWeight := st.weights.findD current 0
      let currentId := f.router.nodes.findD current.gridPos ""
      if current.via = f.goal.via ∧
          (current.gridPos = f.goal.gridPos ∨ currentId = f.goalNode) then
        (st, f.buildRoute st.cameFrom current curWeight)
      else
        f.runLoop (f.stepState current curWeight st) fuel

/-- The header of routeFinder.run: store the goal state (via count 0)
and the via list in the finder. -/
def Finder.prepared (f : Finder) (goal : GridPos) (vias : List GridPos) : Finder :=
  { f with goal := ⟨goal, 0, 0, 0⟩, vias := vias }

/-- routeFinder.run.  Returns the Go result — ok none for "no route",
ok some for a found route, error for a panic — paired with the list of
pushes performed. -/
def Finder.run (f : Finder) (startPositions : List GridPos) (goal : GridPos)
    (vias : List GridPos) : Except String (Option Route) × List PushEv :=
  let f := f.prepared goal vias
  if startPositions.isEmpty then (.ok none, [])
  else
    let st0 : SState := startPositions.foldl
      (fun st pos =>
        let node : GridNode := ⟨pos, 0, 0, (vias.length : Int)⟩
        { st with
          openSet := st.openSet.push node 0
          weights := st.weights.insert node 0 })
      { cameFrom := [], weights := [], openSet := ⟨[]⟩, trace := [] }
    let res := f.runLoop st0 searchLimit
    (res.2, res.1.trace)

/-- The start-position list built by routeLink (the footprint boundary
for a multi-cell node, otherwise the single node position). -/
def startPositionsFor (start : Node) (startPos : GridPos) : List GridPos :=
  if start.IsMultiCell then
    let ext := start.GetExtents
    let minX := ⌈ext.1.X⌉
    let minY := ⌈ext.1.Y⌉
    let maxX := ⌈ext.2.X⌉
    let maxY := ⌈ext.2.Y⌉
    (intRange minX maxX).flatMap (fun x => [⟨x, minY⟩, ⟨x, maxY - 1⟩]) ++
    (intRange (minY + 1) maxY).flatMap (fun y => [⟨minX, y⟩, ⟨maxX - 1, y⟩])
  else [startPos]

/-- LinkRouter.routeLink, also exposing the push trace of the run. -/
def LinkRouter.routeLink (r : LinkRouter) (id : LinkId) :
    Except String (Option Route) × List PushEv :=
  match r.topo.GetLink id with
  | none => (.ok none, [])
  | some link =>
    match r.topo.GetNode link.From with
    | none => (.ok none, [])
    | some start =>
      match start.Pos with
      | none => (.ok none, [])
      | some startPos =>
        match r.topo.GetNode link.To with
        | none => (.ok none, [])
        | some goal =>
          match goal.Pos with
          | none => (.ok none, [])
          | some goalPos =>
            let finder : Finder :=
              { startNode := link.From
                goalNode := link.To
                goal := default
                goalIsMulti := goal.IsMultiCell
                vias := []
                linkId := id
                router := r }
            -- A set of start positions allows multi-cell to multi-cell
            -- links: the whole footprint boundary for a multi-cell
            -- start, otherwise the single node position.
            finder.run (startPositionsFor start startPos) goalPos link.Via

/-! ## RouteLinks: the three routing passes (link_router.go) -/

/-- Stable insertion sort implementing slices.SortStableFunc.  A stable
sort result is uniquely determined by the comparator and the input
order, so insertion sort reproduces the Go result exactly. -/
def insertSorted {A : Type} (cmp : A -> A -> Int) (a : A) : List A -> List A
  | [] => [a]
  | b :: bs => if cmp a b > 0 then b :: insertSorted cmp a bs else a :: b :: bs

def sortStableFunc {A : Type} (cmp : A -> A -> Int) (l : List A) : List A :=
  l.foldr (insertSorted cmp) []

/-- The pass-2 comparator: ascending route weight. -/
def cmpWeight (a b : Route) : Int :=
  let d := a.weight - b.weight
  if d < 0 then -1 else if d > 0 then 1 else 0

/-- The pass-3 comparator: ascending length/weight ratio.  The float32
Euclidean path length takes square roots, which the rational model
cannot express; the length function is a parameter (lenF), and every
theorem about RouteLinks holds for all choices of it, in particular for
the true float32 vec.Polyline.Length. -/
def cmpRatio (lenF : Polyline -> Rat) (a b : Route) : Int :=
  let aWeightRatio := lenF a.path / a.weight
  let bWeightRatio := lenF b.path / b.weight
  let d := aWeightRatio - bWeightRatio
  if d < 0 then -1 else if d > 0 then 1 else 0

/-- Writing link.Route through the topology (Go mutates the *Link). -/
def Topology.setLinkRoute (t : Topology) (id : LinkId) (path : Polyline) : Topology :=
  match t.Links.find? id with
  | none => t
  | some link => { t with Links := t.Links.insert id { link with Route := path } }

/-- One iteration of the first (independent) pass of RouteLinks. -/
def pass1Step (st : LinkRouter × List Route) (id : LinkId) :
    Except String (LinkRouter × List Route) :=
  match st.1.topo.Links.find? id with
  | none => .ok st
  | some link =>
    if link.Route.length > 0 then
      -- Do not re-route links that have already been routed
      .ok st
    else
      match (st.1.routeLink id).1 with
      | .error e => .error e
      | .ok none => .ok st
      | .ok (some route) =>
        .ok ({ st.1 with topo := st.1.topo.setLinkRoute id route.path },
             st.2 ++ [route])

def pass1 (st : LinkRouter × List Route) : List LinkId ->
    Except String (LinkRouter × List Route)
  | [] => .ok st
  | id :: rest =>
    match pass1Step st id with
    | .error e => .error e
    | .ok st2 => pass1 st2 rest

/-- One iteration of the second (aware) pass of RouteLinks.  Note the
occupancy move happens before the GetLink nil check, as in the source. -/
def pass2Step (st : LinkRouter × List Route) (initRoute : Route) :
    Except String (LinkRouter × List Route) :=
  match (st.1.routeLink initRoute.id).1 with
  | .error e => .error e
  | .ok none => .ok st
  | .ok (some route) =>
    let r := st.1.moveRoute route.id initRoute.path route.path
    match r.topo.GetLink route.id with
    | none => .ok (r, st.2)
    | some _ =>
      .ok ({ r with topo := r.topo.setLinkRoute route.id route.path },
           st.2 ++ [route])

def pass2 (st : LinkRouter × List Route) : List Route ->
    Except String (LinkRouter × List Route)
  | [] => .ok st
  | rt :: rest =>
    match pass2Step st rt with
    | .error e => .error e
    | .ok st2 => pass2 st2 rest

/-- One link of a fix-point round: accept the re-routed result only if
its weight is strictly lower than the recorded one. -/
def fixRoundStep (st : LinkRouter × List Route × Bool) (rt : Route) :
    Except String (LinkRouter × List Route × Bool) :=
  match (st.1.routeLink rt.id).1 with
  | .error e => .error e
  | .ok none => .ok (st.1, st.2.1 ++ [rt], st.2.2)
  | .ok (some route) =>
    if route.weight < rt.weight then
      match st.1.topo.GetLink route.id with
      | none => .ok (st.1, st.2.1 ++ [rt], st.2.2)
      | some _ =>
        let r := st.1.moveRoute route.id rt.path route.path
        .ok ({ r with topo := r.topo.setLinkRoute route.id route.path },
             st.2.1 ++ [route], true)
    else
      .ok (st.1, st.2.1 ++ [rt], st.2.2)

def fixRoundGo (st : LinkRouter × List Route × Bool) : List Route ->
    Except String (LinkRouter × List Route × Bool)
  | [] => .ok st
  | rt :: rest =>
    match fixRoundStep st rt with
    | .error e => .error e
    | .ok st2 => fixRoundGo st2 rest

/-- One full round of the fix-point pass over the recorded routes. -/
def fixRound (r : LinkRouter) (newRoutes : List Route) :
    Except String (LinkRouter × List Route × Bool) :=
  fixRoundGo (r, [], false) newRoutes

/-- The fix-point loop: iterate until no route is updated or the
iteration limit is reached (fuel starts at routeIterLimit). -/
def fixPointLoop (r : LinkRouter) (newRoutes : List Route) :
    Nat -> Except String (LinkRouter × List Route)
  | 0 => .ok (r, newRoutes)
  | fuel + 1 =>
    match fixRound r newRoutes with
    | .error e => .error e
    | .ok (r2, nr2, updated) =>
      if updated then fixPointLoop r2 nr2 fuel else .ok (r2, nr2)

/-- LinkRouter.RouteLinks: the three routing passes.  order is the
iteration order of the Go map-range loop of the first pass; lenF stands
for the float32 polyline length, used only inside the pass-3 comparator. -/
def LinkRouter.RouteLinks (r : LinkRouter) (order : List LinkId)
    (lenF : Polyline -> Rat) : Except String LinkRouter :=
  match pass1 (r, []) order with
  | .error e => .error e
  | .ok st1 =>
    -- Add the links to the grid cells
    let r := st1.2.foldl (fun r route => r.addRoute route.id route.path) st1.1
    -- Sort the routes by their weight
    let routes := sortStableFunc cmpWeight st1.2
    match pass2 (r, []) routes with
    | .error e => .error e
    | .ok st2 =>
      -- Sort again, favouring short links over long ones
      let newRoutes := sortStableFunc (cmpRatio lenF) st2.2
      match fixPointLoop st2.1 newRoutes routeIterLimit with
      | .error e => .error e
      | .ok st3 => .ok st3.1

/-! ## Label placement (PlaceLabels) -/

/-- The loop "for i := directionN; i <= directionNW; i++". -/
def allDirections : List direction :=
  [directionN, directionNE, directionE, directionSE, directionS, directionSW,
   directionW, directionNW]

/-- evaluatePosition.  The repulsion term uses the exact squared
distance: Go computes dirCost / (dist*dist) with dist the float32
Euclidean length, and dist*dist reproduces the squared distance up to
float rounding.  Callers guarantee the candidate cell holds no node
(node positions are in fillGrid, the candidate is not), so the distance
is never zero. -/
def evaluatePosition (pos : GridPos) (dir : direction) (id : NodeId)
    (nodes : AList NodeId Node) (nodeOrder : List NodeId)
    (fillGrid : AList GridPos Bool) : Rat :=
  let testPos := pos.toVec
  -- Favor orthogonal placement over diagonal placement
  let dirCost : Rat :=
    if dir = directionN ∨ dir = directionE ∨ dir = directionS ∨ dir = directionW
    then 50 else 100
  -- Each node contributes cost * (1/d^2)
  let score := nodeOrder.foldl
    (fun score nid =>
      if nid = id then score
      else
        match nodes.find? nid with
        | none => score
        | some node =>
          match node.Pos with
          | none => score
          | some p =>
            let nPos := p.toVec
            let diff := testPos.sub nPos
            let distSq := diff.X * diff.X + diff.Y * diff.Y
            score + dirCost / distSq)
    0
  -- Penalty for each occupied cell around the candidate position
  allDirections.foldl
    (fun score d =>
      if d = dir.Opposite then score
      else
        let nPos := d.moveGridPos pos
        if fillGrid.isKey nPos then
          let penalty : Rat := if d = directionE ∨ d = directionW then 50 else 5
          score + penalty
        else score)
    score

/-- The body of the candidate-direction loop of PlaceLabels: an
occupied candidate cell is skipped, an unoccupied one is scored and
kept when it beats the best so far (bestDir/bestScore as an Option). -/
def labelCandidateFold (nodes : AList NodeId Node) (fill : AList GridPos Bool)
    (nodeOrder : List NodeId) (id : NodeId) (pos : GridPos)
    (best : Option (direction × ℚ)) (i : direction) : Option (direction × ℚ) :=
  let candidatePos := i.moveGridPos pos
  if fill.isKey candidatePos then best
  else
    let score := evaluatePosition candidatePos i id nodes nodeOrder fill
    match best with
    | none => some (i, score)
    | some bs => if score < bs.2 then some (i, score) else best

/-- Processing one node of the placement loop of PlaceLabels. -/
def placeStep (nodeOrder : List NodeId) (st : AList NodeId Node × AList GridPos Bool)
    (id : NodeId) : AList NodeId Node × AList GridPos Bool :=
  match st.1.find? id with
  | none => st
  | some node =>
    match node.Pos with
    | none => st
    | some pos =>
      if node.LabelAt ≠ "" then
        -- Skip labels that have already been placed
        st
      else
        -- Lowest-scoring unoccupied candidate direction; none models
        -- bestDir == directionNone
        let best := allDirections.foldl
          (labelCandidateFold st.1 st.2 nodeOrder id pos) none
        match best with
        | none => st
        | some bd =>
          let labelPos := bd.1.moveGridPos pos
          (st.1.insert id { node with LabelAt := dirToString bd.1 },
           st.2.insert labelPos true)

/-- The fillGrid produced by the two recording loops of PlaceLabels
(node positions and preset label cells, then routed link cells). -/
def buildFillGrid (topo : Topology) (nodeOrder : List NodeId)
    (linkOrder : List LinkId) : AList GridPos Bool :=
  let fillGrid := nodeOrder.foldl
    (fun (fill : AList GridPos Bool) nid =>
      match topo.Nodes.find? nid with
      | none => fill
      | some node =>
        match node.Pos with
        | none => fill
        | some pos =>
          let fill := fill.insert pos true
          let dir := directionFromString node.LabelAt
          let labelAt := dir.moveGridPos pos
          if labelAt ≠ pos then fill.insert labelAt true else fill)
    ([] : AList GridPos Bool)
  linkOrder.foldl
    (fun (fill : AList GridPos Bool) lid =>
      match topo.Links.find? lid with
      | none => fill
      | some link =>
        link.Route.foldl
          (fun fill p => fill.insert ⟨f32ToInt p.X, f32ToInt p.Y⟩ true)
          fill)
    fillGrid

/-- PlaceLabels.  nodeOrder and linkOrder are the iteration orders of
the Go map-range loops; the same node order serves the recording loop,
the placement loop and the repulsion sums (only the placement loop's
order can affect the result: the other two produce order-independent
values). -/
def PlaceLabels (topo : Topology) (nodeOrder : List NodeId)
    (linkOrder : List LinkId) : Topology :=
  let fillGrid := buildFillGrid topo nodeOrder linkOrder
  let st := nodeOrder.foldl (placeStep nodeOrder) (topo.Nodes, fillGrid)
  { topo with Nodes := st.1 }

/-- The full pipeline of the determinism property: build the router,
route all links, then place all labels. -/
def pipeline (topo : Topology) (nodeOrder : List NodeId) (linkOrder : List LinkId)
    (lenF : Polyline -> Rat) : Except String Topology :=
  match (NewLinkRouter topo nodeOrder linkOrder).RouteLinks linkOrder lenF with
  | .error e => .error e
  | .ok r => .ok (PlaceLabels r.topo nodeOrder linkOrder)


/-! ## Definitions supporting the theorem statements -/

/-- The spec describes the push priority as round((g + h) * 100);
modelled from the spec's wording: rounding to the nearest integer. -/
def specRound (q : ℚ) : Int := ⌊q + 1 / 2⌋

/-- The start states created by routeFinder.run from its start
positions. -/
def startNodesOf (sps : List GridPos) (vias : List GridPos) : List GridNode :=
  sps.map (fun pos => ⟨pos, 0, 0, (vias.length : Int)⟩)

/-- What the routing passes may do to link id whose entry started as L:
leave the entry untouched, or overwrite its Route with the (nonempty)
path of a route that a routeLink call for this very id produced.  If
every search for the link finds no route, only the first disjunct can
hold, so an initially empty Route stays empty. -/
def KeptOrRouted (id : LinkId) (L : Link) (links : AList LinkId Link) : Prop :=
  links.find? id = some L ∨
  ∃ (r2 : LinkRouter) (route : Route),
    (r2.routeLink id).1 = Except.ok (some route) ∧ route.path ≠ [] ∧
    links.find? id = some { L with Route := route.path }

/-- What one cameFrom entry (key n, value c) guarantees: n was produced
as a neighbour of c, so its direction is nonzero, its position is one
step from c in its own direction or (for a turn) equal to c's, and its
via count equals c's, or is one less when n sits on c's pending via. -/
def GoodPair (f : Finder) (c n : GridNode) : Prop :=
  ¬(n.dirX = 0 ∧ n.dirY = 0) ∧
  (n.gridPos = ⟨c.gridPos.X + n.dirX, c.gridPos.Y + n.dirY⟩ ∨ n.gridPos = c.gridPos) ∧
  (n.via = c.via ∨ (n.via = c.via - 1 ∧ f.getVia c.via = some n.gridPos))

/-- The vias a state with via count k still has to pass, in forward
order (the last k entries of the via list). -/
def Finder.viasFrom (f : Finder) (k : Int) : List GridPos :=
  f.vias.drop ((f.vias.length : Int) - k).toNat

/-- v occurs as a value of the association list. -/
def AList.hasValue {K V : Type} (m : AList K V) (v : V) : Prop :=
  ∃ k, (k, v) ∈ m

/-- The invariant maintained by the search loop of routeFinder.run. -/
structure LoopInv (f : Finder) (starts : List GridNode) (st : SState) : Prop where
  tracePri : ∀ ev ∈ st.trace, ev.pri = f32ToInt ((ev.g + ev.h) * 100)
  traceG : ∀ ev ∈ st.trace, 0 ≤ ev.g
  wNonneg : ∀ p ∈ st.weights, 0 ≤ p.2
  cfGood : ∀ p ∈ st.cameFrom, GoodPair f p.2 p.1
  cfClosed : ∀ p ∈ st.cameFrom, st.cameFrom.isKey p.2 ∨ p.2 ∈ starts
  heapOK : ∀ q ∈ st.openSet.data, st.cameFrom.isKey q.1 ∨ q.1 ∈ starts

/-! ## Concrete inputs used by witnesses and counterexamples -/

def mkNode (id : NodeId) (x y : Int) (labelAt : String) (ext : Option NodeExtents) : Node :=
  { Id := id, Pos := some ⟨x, y⟩, Label := "", LabelAt := labelAt, Extents := ext }

/-- Four nodes, two with preset labels; label placement is
order-dependent on this topology. -/
def topoCeg1 : Topology :=
  { Nodes := [("A", mkNode "A" 1 0 "s" none), ("B", mkNode "B" 4 0 "" none),
              ("C", mkNode "C" 3 3 "s" none), ("D", mkNode "D" 3 1 "" none)]
    Links := [] }

/-- Two single-cell nodes with a link whose route passes beside a cell
occupied by two other links, producing fractional push priorities. -/
def topoCeg2 : Topology :=
  { Nodes := [("A", mkNode "A" 0 0 "" none), ("B", mkNode "B" 3 0 "" none)]
    Links := [("L", { Id := "L", From := "A", To := "B", Via := [], Route := [] }),
              ("L2", { Id := "L2", From := "X", To := "Y", Via := [⟨2, 1⟩], Route := [] }),
              ("L3", { Id := "L3", From := "X", To := "Y", Via := [⟨2, 1⟩], Route := [] })] }

def routerCeg2 : LinkRouter := NewLinkRouter topoCeg2 ["A", "B"] ["L", "L2", "L3"]

/-- A single-cell node linked to a multi-cell node (width 3 centered at
(3,0), so footprint cells (2,0),(3,0),(4,0)), plus a second link carrying
a pre-existing route. -/
def topoCeg8 : Topology :=
  { Nodes := [("A", mkNode "A" 0 0 "" none), ("B", mkNode "B" 3 0 "" (some ⟨3, 1⟩))]
    Links := [("L", { Id := "L", From := "A", To := "B", Via := [], Route := [] }),
              ("P", { Id := "P", From := "A", To := "B", Via := [],
                      Route := [⟨9, 9⟩, ⟨8, 8⟩] })] }

/-- A link with one via waypoint at (1,1). -/
def topoCeg6 : Topology :=
  { Nodes := [("A", mkNode "A" 0 0 "" none), ("B", mkNode "B" 3 0 "" none)]
    Links := [("L", { Id := "L", From := "A", To := "B", Via := [⟨1, 1⟩], Route := [] })] }

def routerCeg6 : LinkRouter := NewLinkRouter topoCeg6 ["A", "B"] ["L"]

/-- Two linked nodes plus a link whose To node does not exist in the
topology: the search for that link finds no route (routeLink bails out
at the nil node) while RouteLinks as a whole succeeds. -/
def topoCeg3 : Topology :=
  { Nodes := [("A", mkNode "A" 0 0 "" none), ("B", mkNode "B" 2 0 "" none)]
    Links := [("L", { Id := "L", From := "A", To := "B", Via := [], Route := [] }),
              ("Q", { Id := "Q", From := "A", To := "Z", Via := [], Route := [] })] }

def rC3res : Except String LinkRouter :=
  (NewLinkRouter topoCeg3 ["A", "B"] ["L", "Q"]).RouteLinks ["L", "Q"] (fun _ => 0)

def rC3 : LinkRouter :=
  match rC3res with
  | .ok r => r
  | .error _ => NewLinkRouter topoCeg3 [] []

def rC9res : Except String LinkRouter :=
  (NewLinkRouter topoCeg8 ["A", "B"] ["L", "P"]).RouteLinks ["L", "P"] (fun _ => 0)

def rC9 : LinkRouter :=
  match rC9res with
  | .ok r => r
  | .error _ => NewLinkRouter topoCeg8 [] []

/-- The label direction recorded for a node in a pipeline result. -/
def labelAtOf (res : Except String Topology) (id : NodeId) : Option String :=
  match res with
  | .ok t => (t.GetNode id).map Node.LabelAt
  | .error _ => none

/-- A fill grid occupying all 8 cells around (4,0), the position of
node B of topoCeg1. -/
def fillAll8 : AList GridPos Bool :=
  [(⟨4, -1⟩, true), (⟨5, -1⟩, true), (⟨5, 0⟩, true), (⟨5, 1⟩, true),
   (⟨4, 1⟩, true), (⟨3, 1⟩, true), (⟨3, 0⟩, true), (⟨3, -1⟩, true)]

/-- A router and a recorded route used to evaluate one fix-point step
concretely (the re-route finds nothing, so nothing is replaced). -/
def routerQ : LinkRouter := NewLinkRouter topoCeg3 [] []

def rtQ : Route := ⟨"Q", [], 0⟩

/-- The finder that routeLink builds for link L of topoCeg2. -/
def finderCeg2 : Finder :=
  { startNode := "A", goalNode := "B", goal := default, goalIsMulti := false,
    vias := [], linkId := "L", router := routerCeg2 }

/-- A minimal finder over an empty topology, for evaluating the edge
cost function at concrete search states. -/
def finderW : Finder :=
  { startNode := "A", goalNode := "B", goal := ⟨⟨9, 9⟩, 0, 0, 0⟩,
    goalIsMulti := false, vias := [], linkId := "L",
    router := NewLinkRouter { Nodes := [], Links := [] } [] [] }

/-- A link whose via list repeats the same waypoint twice in a row. -/
def topoC6b : Topology :=
  { Nodes := [("A", mkNode "A" 0 0 "" none), ("B", mkNode "B" 3 0 "" none)]
    Links := [("L6", { Id := "L6", From := "A", To := "B",
                       Via := [⟨1, 1⟩, ⟨1, 1⟩], Route := [] })] }

def routerC6b : LinkRouter := NewLinkRouter topoC6b ["A", "B"] ["L6"]

/-- The route of a successful routeLink result (dummy otherwise). -/
def rtOf (res : Except String (Option Route)) : Route :=
  match res with
  | .ok (some rt) => rt
  | _ => ⟨"", [], 0⟩

def rtC6b : Route := rtOf (routerC6b.routeLink "L6").1

def rtC6w : Route := rtOf (routerCeg6.routeLink "L").1

def rtC8w : Route := rtOf (routerCeg2.routeLink "L").1

/-- The topology produced by the full pipeline on topoCeg8. -/
def tC8 : Topology :=
  match pipeline topoCeg8 ["A", "B"] ["L", "P"] (fun _ => 0) with
  | .ok t => t
  | .error _ => topoCeg8

/-! # Theorems

Everything below this point is a theorem (with a handful of concrete
inputs used by witnesses and counterexamples, defined just before the
theorems that evaluate them). -/

theorem f32ToInt_eq_floor {q : ℚ} (h : 0 ≤ q) : f32ToInt q = ⌊q⌋ := by
  simp [f32ToInt, h]

namespace AList

variable {K V : Type} [DecidableEq K]

theorem find?_insert_self (m : AList K V) (k : K) (v : V) :
    (m.insert k v).find? k = some v := by
  induction m with
  | nil => simp [insert, find?]
  | cons p rest ih =>
    obtain ⟨k', v'⟩ := p
    by_cases h : k' = k
    · subst h; simp [insert, find?]
    · simp [insert, find?, h, ih]

theorem find?_insert_ne (m : AList K V) {k k' : K} (v : V) (h : k' ≠ k) :
    (m.insert k v).find? k' = m.find? k' := by
  induction m with
  | nil =>
    have h' : ¬ k = k' := fun hh => h hh.symm
    simp [insert, find?, h']
  | cons p rest ih =>
    obtain ⟨k0, v0⟩ := p
    by_cases hk : k0 = k
    · subst hk
      have h' : ¬ k0 = k' := fun hh => h hh.symm
      simp [insert, find?, h']
    · simp [insert, find?, hk, ih]

theorem mem_insert {m : AList K V} {k : K} {v : V} {p : K × V}
    (h : p ∈ m.insert k v) : p ∈ m ∨ p = (k, v) := by
  induction m with
  | nil =>
    simp only [insert, List.mem_singleton] at h
    exact Or.inr h
  | cons q rest ih =>
    obtain ⟨k0, v0⟩ := q
    by_cases hk : k0 = k
    · subst hk
      simp only [insert, if_pos rfl, List.mem_cons, eq_self_iff_true, if_true] at h
      rcases h with h1 | h1
      · exact Or.inr h1
      · exact Or.inl (List.mem_cons_of_mem _ h1)
    · simp only [insert, if_neg hk, List.mem_cons] at h
      rcases h with h1 | h1
      · exact Or.inl (h1 ▸ List.mem_cons_self _ _)
      · rcases ih h1 with h2 | h2
        · exact Or.inl (List.mem_cons_of_mem _ h2)
        · exact Or.inr h2

theorem find?_some_mem {m : AList K V} {k : K} {v : V}
    (h : m.find? k = some v) : (k, v) ∈ m := by
  induction m with
  | nil => simp [find?] at h
  | cons q rest ih =>
    obtain ⟨k0, v0⟩ := q
    by_cases hk : k0 = k
    · subst hk
      rw [find?, if_pos rfl] at h
      injection h with h1
      subst h1
      exact List.mem_cons_self _ _
    · rw [find?, if_neg hk] at h
      exact List.mem_cons_of_mem _ (ih h)

theorem isKey_insert_self (m : AList K V) (k : K) (v : V) :
    (m.insert k v).isKey k := by
  simp [isKey, find?_insert_self]

theorem isKey_insert_of_isKey {m : AList K V} {k' : K} (k : K) (v : V)
    (h : m.isKey k') : (m.insert k v).isKey k' := by
  by_cases hk : k' = k
  · subst hk; exact isKey_insert_self m k' v
  · simpa [isKey, find?_insert_ne m v hk] using h

theorem isKey_of_find?_some {m : AList K V} {k : K} {v : V}
    (h : m.find? k = some v) : m.isKey k := by
  simp [isKey, h]

end AList

theorem chebyshevDistance_nonneg (a b : GridPos) :
    0 ≤ a.chebyshevDistance b := by
  simp only [GridPos.chebyshevDistance]
  split_ifs <;> exact Int.cast_nonneg.mpr (by omega)

theorem toVec_injective : Function.Injective GridPos.toVec := by
  intro a b h
  have h1 : (a.X : ℚ) = (b.X : ℚ) := congrArg Vec2.X h
  have h2 : (a.Y : ℚ) = (b.Y : ℚ) := congrArg Vec2.Y h
  cases a; cases b
  simp only [GridPos.mk.injEq]
  exact ⟨by exact_mod_cast h1, by exact_mod_cast h2⟩

namespace MinHeap

variable {α : Type}

theorem mem_swapAt {h : MinHeap α} {i j : Nat} {p : α × Int}
    (hp : p ∈ (h.swapAt i j).data) : p ∈ h.data := by
  unfold swapAt at hp
  split at hp
  · next a b ha hb =>
    rcases List.mem_or_eq_of_mem_set hp with hp' | hp'
    · rcases List.mem_or_eq_of_mem_set hp' with hp'' | hp''
      · exact hp''
      · subst hp''; exact List.get?_mem hb
    · subst hp'; exact List.get?_mem ha
  · exact hp

theorem mem_upAux {p : α × Int} :
    ∀ fuel j (h : MinHeap α), p ∈ (upAux fuel h j).data → p ∈ h.data := by
  intro fuel
  induction fuel with
  | zero => intro j h hp; exact hp
  | succ fuel ih =>
    intro j h hp
    rw [upAux] at hp
    split at hp
    · exact hp
    · exact mem_swapAt (ih _ _ hp)

theorem mem_up {p : α × Int} :
    ∀ j (h : MinHeap α), p ∈ (h.up j).data → p ∈ h.data :=
  fun j h hp => mem_upAux (j + 1) j h hp

theorem mem_downAux {p : α × Int} :
    ∀ fuel i n (h : MinHeap α), p ∈ (downAux fuel h i n).data → p ∈ h.data := by
  intro fuel
  induction fuel with
  | zero => intro i n h hp; exact hp
  | succ fuel ih =>
    intro i n h hp
    rw [downAux] at hp
    split at hp
    · exact hp
    · split at hp
      · split at hp
        · exact mem_swapAt (ih _ _ _ hp)
        · exact hp
      · split at hp
        · exact mem_swapAt (ih _ _ _ hp)
        · exact hp

theorem mem_down' {p : α × Int} {i n : Nat} {h : MinHeap α}
    (hp : p ∈ (h.down i n).data) : p ∈ h.data :=
  mem_downAux (n - i) i n h hp

theorem mem_push {h : MinHeap α} {v : α} {pri : Int} {p : α × Int}
    (hp : p ∈ (h.push v pri).data) : p ∈ h.data ∨ p = (v, pri) := by
  have := mem_up _ _ hp
  simpa using this

/-- Both the popped element and every element of the remaining heap come
from the original heap. -/
theorem pop_spec {h : MinHeap α} {x : α} {h' : MinHeap α}
    (hp : h.pop = some (x, h')) :
    (∃ pri, (x, pri) ∈ h.data) ∧ ∀ p ∈ h'.data, p ∈ h.data := by
  unfold pop at hp
  split at hp
  · exact absurd hp (by simp)
  · dsimp only at hp
    split at hp
    · next q hq =>
      injection hp with hp1
      injection hp1 with hx hh
      constructor
      · refine ⟨q.2, ?_⟩
        have hmem : q ∈ ((h.swapAt 0 (h.data.length - 1)).down 0 (h.data.length - 1)).data :=
          List.get?_mem hq
        have hq' : q ∈ h.data := mem_swapAt (mem_down' hmem)
        rw [← hx]
        simpa using hq'
      · intro p hpmem
        rw [← hh] at hpmem
        have : p ∈ ((h.swapAt 0 (h.data.length - 1)).down 0 (h.data.length - 1)).data :=
          List.mem_of_mem_take hpmem
        exact mem_swapAt (mem_down' this)
    · exact absurd hp (by simp)

end MinHeap

/-! ## The edge-cost function: C4 and C5 -/

theorem penLoop_closed (lid : LinkId) (links : List LinkId) (p n : ℚ) :
    penLoop lid links (p, n) =
      (p + ∑ i ∈ Finset.range ((links.filter (fun l => l ≠ lid)).length), 1 / (n * 2 ^ i),
       n * 2 ^ ((links.filter (fun l => l ≠ lid)).length)) := by
  induction links generalizing p n with
  | nil => simp [penLoop]
  | cons l rest ih =>
    by_cases hl : l = lid
    · have hfilter : (l :: rest).filter (fun l => l ≠ lid) = rest.filter (fun l => l ≠ lid) := by
        simp [List.filter_cons, hl]
      have hstep : penLoop lid (l :: rest) (p, n) = penLoop lid rest (p, n) := by
        simp [penLoop, hl]
      rw [hfilter, hstep, ih]
    · have hfilter : (l :: rest).filter (fun l => l ≠ lid) =
          l :: rest.filter (fun l => l ≠ lid) := by
        simp [List.filter_cons, hl]
      have hstep : penLoop lid (l :: rest) (p, n) = penLoop lid rest (p + 1 / n, n * 2) := by
        simp [penLoop, hl]
      rw [hfilter, hstep, ih]
      set k := (rest.filter (fun l => l ≠ lid)).length with hk
      have hterm : ∀ i : ℕ, (1 : ℚ) / (n * 2 ^ (i + 1)) = 1 / (n * 2 * 2 ^ i) := by
        intro i
        rw [pow_succ]
        ring_nf
      simp only [Prod.mk.injEq]
      constructor
      · simp only [List.length_cons]
        rw [Finset.sum_range_succ', Finset.sum_congr rfl (fun i _ => hterm i)]
        ring
      · simp only [List.length_cons]
        rw [pow_succ]
        ring

theorem penLoop_fst_nonneg (lid : LinkId) (links : List LinkId) :
    ∀ acc : ℚ × ℚ, 0 ≤ acc.1 → 0 < acc.2 →
      0 ≤ (penLoop lid links acc).1 ∧ 0 < (penLoop lid links acc).2 := by
  induction links with
  | nil =>
    intro acc h1 h2
    simpa [penLoop] using ⟨h1, h2⟩
  | cons l rest ih =>
    intro acc h1 h2
    by_cases hl : l = lid
    · have hstep : penLoop lid (l :: rest) acc = penLoop lid rest acc := by
        obtain ⟨a1, a2⟩ := acc
        simp [penLoop, hl]
      rw [hstep]
      exact ih acc h1 h2
    · have hstep : penLoop lid (l :: rest) acc =
          penLoop lid rest (acc.1 + 1 / acc.2, acc.2 * 2) := by
        obtain ⟨a1, a2⟩ := acc
        simp [penLoop, hl]
      rw [hstep]
      exact ih _ (by positivity) (by positivity)

theorem addPenaltyF_nonneg (f : Finder) (pen : ℚ) (at_ : GridPos) (h : 0 ≤ pen) :
    0 ≤ addPenaltyF f pen at_ := by
  unfold addPenaltyF
  split
  · exact h
  · exact (penLoop_fst_nonneg f.linkId _ (pen, 16) h (by norm_num)).1

theorem iteNonneg {c : Prop} [Decidable c] {x y : ℚ} (hx : 0 ≤ x) (hy : 0 ≤ y) :
    0 ≤ if c then x else y := by
  split <;> assumption

theorem iteFstNonneg {c : Prop} [Decidable c] {p q : ℚ × ℚ} (hp : 0 ≤ p.1) (hq : 0 ≤ q.1) :
    0 ≤ (if c then p else q).1 := by
  split <;> assumption

theorem linkPenaltyFor_nonneg (f : Finder) (a b : GridNode) :
    0 ≤ linkPenaltyFor f a b := by
  simp only [linkPenaltyFor]
  have hbase := penLoop_fst_nonneg f.linkId (f.router.linkMap.findD b.gridPos [])
    ((0 : ℚ), 1) (by norm_num) (by norm_num)
  apply iteNonneg
  · apply addPenaltyF_nonneg
    apply addPenaltyF_nonneg
    apply iteNonneg
    · apply addPenaltyF_nonneg
      apply addPenaltyF_nonneg
      apply iteFstNonneg
      · exact (penLoop_fst_nonneg _ _ _ hbase.1 hbase.2).1
      · exact hbase.1
    · apply iteNonneg
      · apply addPenaltyF_nonneg
        apply iteFstNonneg
        · exact (penLoop_fst_nonneg _ _ _ hbase.1 hbase.2).1
        · exact hbase.1
      · apply iteFstNonneg
        · exact (penLoop_fst_nonneg _ _ _ hbase.1 hbase.2).1
        · exact hbase.1
  · apply iteNonneg
    · apply addPenaltyF_nonneg
      apply iteNonneg
      · apply addPenaltyF_nonneg
        apply addPenaltyF_nonneg
        apply iteFstNonneg
        · exact (penLoop_fst_nonneg _ _ _ hbase.1 hbase.2).1
        · exact hbase.1
      · apply iteNonneg
        · apply addPenaltyF_nonneg
          apply iteFstNonneg
          · exact (penLoop_fst_nonneg _ _ _ hbase.1 hbase.2).1
          · exact hbase.1
        · apply iteFstNonneg
          · exact (penLoop_fst_nonneg _ _ _ hbase.1 hbase.2).1
          · exact hbase.1
    · apply iteNonneg
      · apply addPenaltyF_nonneg
        apply addPenaltyF_nonneg
        apply iteFstNonneg
        · exact (penLoop_fst_nonneg _ _ _ hbase.1 hbase.2).1
        · exact hbase.1
      · apply iteNonneg
        · apply addPenaltyF_nonneg
          apply iteFstNonneg
          · exact (penLoop_fst_nonneg _ _ _ hbase.1 hbase.2).1
          · exact hbase.1
        · apply iteFstNonneg
          · exact (penLoop_fst_nonneg _ _ _ hbase.1 hbase.2).1
          · exact hbase.1

theorem weightParts_fst_nonneg (f : Finder) (cf : AList GridNode GridNode)
    (a b : GridNode) : 0 ≤ (f.weightParts cf a b).1 := by
  by_cases hab : a.gridPos = b.gridPos
  · rcases hfind : cf.find? a with _ | prev
    · simp [Finder.weightParts, hab, hfind]
    · by_cases hprev : prev.gridPos = a.gridPos
      · have hprev2 : prev.gridPos = b.gridPos := hab ▸ hprev
        simp [Finder.weightParts, hab, hfind, hprev2]
      · have hprev2 : ¬ prev.gridPos = b.gridPos := fun h => hprev (h.trans hab.symm)
        simp [Finder.weightParts, hab, hfind, hprev2]
  · have hcheb := chebyshevDistance_nonneg a.gridPos b.gridPos
    by_cases hgoal : b.gridPos ≠ f.goal.gridPos ∧ f.router.nodes.findD b.gridPos "" ≠ f.goalNode <;>
      simp [Finder.weightParts, hab, hgoal, hcheb]

theorem weightParts_snd_nonneg (f : Finder) (cf : AList GridNode GridNode)
    (a b : GridNode) : 0 ≤ (f.weightParts cf a b).2 := by
  by_cases hab : a.gridPos = b.gridPos
  · rcases hfind : cf.find? a with _ | prev
    · simp [Finder.weightParts, hab, hfind]
    · by_cases hprev : prev.gridPos = a.gridPos
      · have hprev2 : prev.gridPos = b.gridPos := hab ▸ hprev
        simp [Finder.weightParts, hab, hfind, hprev2]
      · have hprev2 : ¬ prev.gridPos = b.gridPos := fun h => hprev (h.trans hab.symm)
        simp [Finder.weightParts, hab, hfind, hprev2]
  · have hpen := linkPenaltyFor_nonneg f a b
    by_cases hgoal : b.gridPos ≠ f.goal.gridPos ∧ f.router.nodes.findD b.gridPos "" ≠ f.goalNode <;>
      simp [Finder.weightParts, hab, hgoal, hpen]

theorem weight_nonneg (f : Finder) (cf : AList GridNode GridNode) (a b : GridNode)
    (hw : 0 ≤ f.router.linkPenaltyWeight) : 0 ≤ f.weight cf a b := by
  unfold Finder.weight
  have h1 := weightParts_fst_nonneg f cf a b
  have h2 := weightParts_snd_nonneg f cf a b
  positivity

/-- C4: the edge-cost function gives base distance 1 to a straight step
between adjacent cells, 2 to a turn (same cell, direction change), and
4 to a turn whose immediately preceding recorded step was also a turn. -/
theorem weight_base_distances (f : Finder) (cf : AList GridNode GridNode)
    (a b : GridNode) :
    (a.gridPos = b.gridPos →
      ((∀ prev, cf.find? a = some prev → prev.gridPos ≠ a.gridPos) →
        (f.weightParts cf a b).1 = 2) ∧
      (∀ prev, cf.find? a = some prev → prev.gridPos = a.gridPos →
        (f.weightParts cf a b).1 = 4)) ∧
    (a.gridPos ≠ b.gridPos → a.gridPos.chebyshevDistance b.gridPos = 1 →
      (f.weightParts cf a b).1 = 1) := by
  constructor
  · intro hab
    constructor
    · intro hnoturn
      rcases hfind : cf.find? a with _ | prev
      · simp [Finder.weightParts, hab, hfind]
      · have hprev2 : ¬ prev.gridPos = b.gridPos :=
          fun h => hnoturn prev hfind (h.trans hab.symm)
        simp [Finder.weightParts, hab, hfind, hprev2]
    · intro prev hfind hprev
      have hprev2 : prev.gridPos = b.gridPos := hab ▸ hprev
      simp [Finder.weightParts, hab, hfind, hprev2]
  · intro hab hcheb
    by_cases hgoal : b.gridPos ≠ f.goal.gridPos ∧ f.router.nodes.findD b.gridPos "" ≠ f.goalNode <;>
      simp [Finder.weightParts, hab, hgoal, hcheb]

def finderWcf : AList GridNode GridNode :=
  [(⟨⟨0, 0⟩, 1, 0, 0⟩, ⟨⟨0, 0⟩, 0, 1, 0⟩)]

/-- Witness for the C4 theorem at concrete search states: a turn at
(0,0) after a straight step costs 2, after a recorded turn costs 4, and
a straight step to the adjacent cell (1,0) costs 1. -/
theorem weight_base_distances_witness :
    (finderW.weightParts [] ⟨⟨0, 0⟩, 1, 0, 0⟩ ⟨⟨0, 0⟩, 1, 1, 0⟩).1 = 2 ∧
    (finderW.weightParts finderWcf ⟨⟨0, 0⟩, 1, 0, 0⟩ ⟨⟨0, 0⟩, 1, 1, 0⟩).1 = 4 ∧
    (finderW.weightParts [] ⟨⟨0, 0⟩, 1, 0, 0⟩ ⟨⟨1, 0⟩, 1, 0, 0⟩).1 = 1 := by
  refine ⟨?_, ?_, ?_⟩
  · exact ((weight_base_distances finderW [] ⟨⟨0, 0⟩, 1, 0, 0⟩ ⟨⟨0, 0⟩, 1, 1, 0⟩).1
      rfl).1 (by intro prev h; simp [AList.find?] at h)
  · exact ((weight_base_distances finderW finderWcf ⟨⟨0, 0⟩, 1, 0, 0⟩ ⟨⟨0, 0⟩, 1, 1, 0⟩).1
      rfl).2 ⟨⟨0, 0⟩, 0, 1, 0⟩ (by decide) rfl
  · exact (weight_base_distances finderW [] ⟨⟨0, 0⟩, 1, 0, 0⟩ ⟨⟨1, 0⟩, 1, 0, 0⟩).2
      (by decide) (by decide)

theorem foldl_preserve {σ α β : Type} (f : σ → α → σ) (proj : σ → β)
    (hf : ∀ s a, proj (f s a) = proj s) :
    ∀ (l : List α) (s : σ), proj (l.foldl f s) = proj s := by
  intro l
  induction l with
  | nil => intro s; rfl
  | cons a rest ih =>
    intro s
    simp only [List.foldl_cons]
    rw [ih, hf]

theorem addLink_lpw (r : LinkRouter) (p : GridPos) (id : LinkId) :
    (r.addLink p id).linkPenaltyWeight = r.linkPenaltyWeight := by
  simp only [LinkRouter.addLink]
  split <;> rfl

theorem addRoute_lpw (r : LinkRouter) (id : LinkId) (path : Polyline) :
    (r.addRoute id path).linkPenaltyWeight = r.linkPenaltyWeight := by
  simp only [LinkRouter.addRoute]
  exact foldl_preserve _ LinkRouter.linkPenaltyWeight
    (fun s a => addLink_lpw s _ id) path r

theorem nodeStepExtents_lpw (r : LinkRouter) (se : Bool) (pos : GridPos) :
    (nodeStepExtents r se pos).linkPenaltyWeight = r.linkPenaltyWeight := by
  simp only [nodeStepExtents]
  split <;> rfl

theorem nodeStepMulti_lpw (r : LinkRouter) (node : Node) :
    (nodeStepMulti r node).linkPenaltyWeight = r.linkPenaltyWeight := by
  simp only [nodeStepMulti]
  split
  · split
    · split
      · exact foldl_preserve
          (fun (r : LinkRouter) (p : GridPos) => { r with nodes := r.nodes.insert p node.Id })
          LinkRouter.linkPenaltyWeight (fun s p => rfl) _ r
      · rfl
    · rfl
  · rfl

theorem nodeStepLabel_lpw (r : LinkRouter) (node : Node) (pos : GridPos) :
    (nodeStepLabel r node pos).linkPenaltyWeight = r.linkPenaltyWeight := by
  simp only [nodeStepLabel]
  split <;> rfl

theorem newRouterNodeStep_lpw (st : LinkRouter × Bool) (node : Node) :
    (newRouterNodeStep st node).1.linkPenaltyWeight = st.1.linkPenaltyWeight := by
  unfold newRouterNodeStep
  rcases node.Pos with _ | pos
  · rfl
  · dsimp only
    rw [nodeStepLabel_lpw, nodeStepMulti_lpw]
    exact nodeStepExtents_lpw st.1 st.2 pos

theorem newRouterLinkStep_lpw (r : LinkRouter) (id : LinkId) (link : Link) :
    (newRouterLinkStep r id link).linkPenaltyWeight = r.linkPenaltyWeight := by
  simp only [newRouterLinkStep]
  split
  · exact addRoute_lpw r id link.Route
  · have hvia : (link.Via.foldl (fun r via => r.addLink via id) r).linkPenaltyWeight
        = r.linkPenaltyWeight :=
      foldl_preserve _ LinkRouter.linkPenaltyWeight
        (fun s a => addLink_lpw s a id) link.Via r
    repeat' split
    all_goals simp only [addLink_lpw, hvia]

/-- C5: the occupancy penalty is added only when the destination is
neither the goal cell nor a cell of the goal node; each link other than
the one being routed that occupies the destination cell contributes
half the previous contribution, starting at 1 (so the sum over k
conflicting links is 1 + 1/2 + ... + (1/2)^(k-1)); and the total
penalty enters the edge weight multiplied by the linkPenaltyWeight of
the router, which NewLinkRouter sets to the default 10. -/
theorem weight_occupancy_penalty (f : Finder) (cf : AList GridNode GridNode)
    (a b : GridNode) :
    (¬(a.gridPos ≠ b.gridPos ∧ b.gridPos ≠ f.goal.gridPos ∧
        f.router.nodes.findD b.gridPos "" ≠ f.goalNode) →
      (f.weightParts cf a b).2 = 0) ∧
    (∀ links : List LinkId,
      (penLoop f.linkId links (0, 1)).1 =
        ∑ i ∈ Finset.range ((links.filter (fun l => l ≠ f.linkId)).length), (1 / 2 : ℚ) ^ i) ∧
    (f.weight cf a b = (f.weightParts cf a b).1 +
        (f.weightParts cf a b).2 * f.router.linkPenaltyWeight) ∧
    (∀ (topo : Topology) (nodeOrder : List NodeId) (linkOrder : List LinkId),
      (NewLinkRouter topo nodeOrder linkOrder).linkPenaltyWeight = 10) := by
  refine ⟨?_, ?_, rfl, ?_⟩
  · intro hnot
    by_cases hab : a.gridPos = b.gridPos
    · rcases hfind : cf.find? a with _ | prev
      · simp [Finder.weightParts, hab, hfind]
      · by_cases hprev : prev.gridPos = b.gridPos <;>
          simp [Finder.weightParts, hab, hfind, hprev]
    · have hgoal : ¬(b.gridPos ≠ f.goal.gridPos ∧
          f.router.nodes.findD b.gridPos "" ≠ f.goalNode) :=
        fun h => hnot ⟨hab, h⟩
      simp [Finder.weightParts, hab, hgoal]
  · intro links
    rw [penLoop_closed]
    simp [one_div, inv_pow]
  · intro topo nodeOrder linkOrder
    unfold NewLinkRouter
    have hnodes : ∀ (ids : List NodeId) (st : LinkRouter × Bool),
        st.1.linkPenaltyWeight = 10 →
          (ids.foldl (fun st id =>
            match topo.Nodes.find? id with
            | none => st
            | some node => newRouterNodeStep st node) st).1.linkPenaltyWeight = 10 := by
      intro ids
      induction ids with
      | nil => intro st hst; exact hst
      | cons id rest ih =>
        intro st hst
        simp only [List.foldl_cons]
        apply ih
        rcases topo.Nodes.find? id with _ | node
        · exact hst
        · rw [newRouterNodeStep_lpw]
          exact hst
    have hlinks : ∀ (ids : List LinkId) (r : LinkRouter),
        r.linkPenaltyWeight = 10 →
          (ids.foldl (fun r id =>
            match topo.Links.find? id with
            | none => r
            | some link => newRouterLinkStep r id link) r).linkPenaltyWeight = 10 := by
      intro ids
      induction ids with
      | nil => intro r hr; exact hr
      | cons id rest ih =>
        intro r hr
        simp only [List.foldl_cons]
        apply ih
        rcases topo.Links.find? id with _ | link
        · exact hr
        · rw [newRouterLinkStep_lpw]
          exact hr
    exact hlinks _ _ (hnodes _ _ rfl)
/-! ## Soundness of neighbour production -/

theorem produceOne_mem (f : Finder) (cf : AList GridNode GridNode)
    (pos g n : GridNode) (hn : n ∈ f.produceOne cf pos g) :
    n = f.adjustVia pos g := by
  unfold Finder.produceOne at hn
  split at hn
  · simp at hn
  · split at hn
    · simp at hn
    · dsimp only at hn
      repeat' split at hn
      all_goals
        first
          | exact List.mem_singleton.mp hn
          | exact absurd hn (List.not_mem_nil n)

theorem adjustVia_good (f : Finder) (pos g : GridNode)
    (hg1 : g.via = pos.via)
    (hg2 : ¬(g.dirX = 0 ∧ g.dirY = 0))
    (hg3 : g.gridPos = ⟨pos.gridPos.X + g.dirX, pos.gridPos.Y + g.dirY⟩ ∨
      g.gridPos = pos.gridPos) :
    GoodPair f pos (f.adjustVia pos g) := by
  unfold Finder.adjustVia
  rcases hvia : f.getVia pos.via with _ | v <;> dsimp only
  · exact ⟨hg2, hg3, Or.inl hg1⟩
  · by_cases hgv : g.gridPos = v
    · rw [if_pos hgv]
      refine ⟨hg2, hg3, Or.inr ⟨by simp [hg1], ?_⟩⟩
      rw [hvia, hgv]
    · rw [if_neg hgv]
      exact ⟨hg2, hg3, Or.inl hg1⟩

theorem produceOne_good (f : Finder) (cf : AList GridNode GridNode)
    (pos g n : GridNode)
    (hn : n ∈ f.produceOne cf pos g)
    (hg1 : g.via = pos.via)
    (hg2 : ¬(g.dirX = 0 ∧ g.dirY = 0))
    (hg3 : g.gridPos = ⟨pos.gridPos.X + g.dirX, pos.gridPos.Y + g.dirY⟩ ∨
      g.gridPos = pos.gridPos) : GoodPair f pos n := by
  rw [produceOne_mem f cf pos g n hn]
  exact adjustVia_good f pos g hg1 hg2 hg3

theorem neighbours_sound (f : Finder) (cf : AList GridNode GridNode)
    (pos n : GridNode) (hn : n ∈ f.neighbours cf pos) : GoodPair f pos n := by
  unfold Finder.neighbours at hn
  by_cases hdir : pos.dirX ≠ 0 ∨ pos.dirY ≠ 0
  · rw [if_pos hdir] at hn
    have hdir2 : ¬(pos.dirX = 0 ∧ pos.dirY = 0) := by
      rcases hdir with h | h
      · exact fun hc => h hc.1
      · exact fun hc => h hc.2
    simp only at hn
    rcases List.mem_append.mp hn with h | h
    · exact produceOne_good f cf pos _ n h rfl hdir2 (Or.inl rfl)
    · by_cases horth : f.router.Orthogonal
      · rw [if_pos horth] at h
        by_cases hx0 : pos.dirX = 0
        · rw [if_pos hx0] at h
          have hy0 : pos.dirY ≠ 0 := by
            rcases hdir with h1 | h1
            · exact absurd hx0 h1
            · exact h1
          rcases List.mem_append.mp h with h1 | h1
          · exact produceOne_good f cf pos _ n h1 rfl (by simpa using hy0) (Or.inr rfl)
          · exact produceOne_good f cf pos _ n h1 rfl (by simp [hy0]) (Or.inr rfl)
        · rw [if_neg hx0] at h
          rcases List.mem_append.mp h with h1 | h1
          · exact produceOne_good f cf pos _ n h1 rfl (by simpa using hx0) (Or.inr rfl)
          · exact produceOne_good f cf pos _ n h1 rfl (by simp [hx0]) (Or.inr rfl)
      · rw [if_neg horth] at h
        rcases List.mem_append.mp h with h1 | h1
        · by_cases hx0 : pos.dirX = 0
          · rw [if_pos hx0] at h1
            rcases List.mem_append.mp h1 with h2 | h2
            · exact produceOne_good f cf pos _ n h2 rfl (by simp) (Or.inr rfl)
            · exact produceOne_good f cf pos _ n h2 rfl (by simp) (Or.inr rfl)
          · rw [if_neg hx0] at h1
            by_cases hy0 : pos.dirY ≠ 0
            · rw [if_pos hy0] at h1
              exact produceOne_good f cf pos _ n h1 rfl (by simpa using hy0) (Or.inr rfl)
            · rw [if_neg hy0] at h1
              exact absurd h1 (List.not_mem_nil n)
        · by_cases hy0 : pos.dirY = 0
          · rw [if_pos hy0] at h1
            rcases List.mem_append.mp h1 with h2 | h2
            · exact produceOne_good f cf pos _ n h2 rfl (by simp) (Or.inr rfl)
            · exact produceOne_good f cf pos _ n h2 rfl (by simp) (Or.inr rfl)
          · rw [if_neg hy0] at h1
            by_cases hx0 : pos.dirX ≠ 0
            · rw [if_pos hx0] at h1
              exact produceOne_good f cf pos _ n h1 rfl (by simpa using hx0) (Or.inr rfl)
            · rw [if_neg hx0] at h1
              exact absurd h1 (List.not_mem_nil n)
  · rw [if_neg hdir] at hn
    push_neg at hdir
    simp only at hn
    rcases List.mem_append.mp hn with h | h
    · rcases List.mem_flatMap.mp h with ⟨d, hd, hmem⟩
      have hd2 : d = (-1, 0) ∨ d = (0, -1) ∨ d = (0, 1) ∨ d = (1, 0) := by
        simpa using hd
      rcases hd2 with rfl | rfl | rfl | rfl <;>
        exact produceOne_good f cf pos _ n hmem rfl (by simp) (Or.inl rfl)
    · split at h
      · rcases List.mem_flatMap.mp h with ⟨d, hd, hmem⟩
        have hd2 : d = (-1, -1) ∨ d = (-1, 1) ∨ d = (1, -1) ∨ d = (1, 1) := by
          simpa using hd
        rcases hd2 with rfl | rfl | rfl | rfl <;>
          exact produceOne_good f cf pos _ n hmem rfl (by simp) (Or.inl rfl)
      · exact absurd h (List.not_mem_nil n)

/-! ## Preservation of the search-loop invariant -/

theorem expandOne_inv (f : Finder) (starts : List GridNode)
    (hw : 0 ≤ f.router.linkPenaltyWeight)
    (current n : GridNode) (curW : ℚ) (st : SState)
    (hInv : LoopInv f starts st)
    (hcw : 0 ≤ curW)
    (hcur : st.cameFrom.isKey current ∨ current ∈ starts)
    (hgood : GoodPair f current n) :
    LoopInv f starts (f.expandOne current curW st n) ∧
      ((f.expandOne current curW st n).cameFrom.isKey current ∨ current ∈ starts) := by
  unfold Finder.expandOne
  dsimp only
  split
  · constructor
    · constructor
      · intro ev hev
        rcases List.mem_append.mp hev with h | h
        · exact hInv.tracePri ev h
        · have : ev = ⟨curW + f.weight st.cameFrom current n,
              f.goalDistance n + (n.via : ℚ),
              f32ToInt ((curW + f.weight st.cameFrom current n +
                (f.goalDistance n + (n.via : ℚ))) * 100)⟩ :=
            List.mem_singleton.mp h
          rw [this]
      · intro ev hev
        rcases List.mem_append.mp hev with h | h
        · exact hInv.traceG ev h
        · have hev2 := List.mem_singleton.mp h
          rw [hev2]
          exact add_nonneg hcw (weight_nonneg f st.cameFrom current n hw)
      · intro p hp
        rcases AList.mem_insert hp with h | h
        · exact hInv.wNonneg p h
        · rw [h]
          exact add_nonneg hcw (weight_nonneg f st.cameFrom current n hw)
      · intro p hp
        rcases AList.mem_insert hp with h | h
        · exact hInv.cfGood p h
        · rw [h]
          exact hgood
      · intro p hp
        rcases AList.mem_insert hp with h | h
        · rcases hInv.cfClosed p h with h2 | h2
          · exact Or.inl (AList.isKey_insert_of_isKey _ _ h2)
          · exact Or.inr h2
        · rw [h]
          rcases hcur with h2 | h2
          · exact Or.inl (AList.isKey_insert_of_isKey _ _ h2)
          · exact Or.inr h2
      · intro q hq
        rcases MinHeap.mem_push hq with h | h
        · rcases hInv.heapOK q h with h2 | h2
          · exact Or.inl (AList.isKey_insert_of_isKey _ _ h2)
          · exact Or.inr h2
        · rw [h]
          exact Or.inl (AList.isKey_insert_self _ _ _)
    · rcases hcur with h2 | h2
      · exact Or.inl (AList.isKey_insert_of_isKey _ _ h2)
      · exact Or.inr h2
  · exact ⟨hInv, hcur⟩

theorem foldExpand_inv (f : Finder) (starts : List GridNode)
    (hw : 0 ≤ f.router.linkPenaltyWeight) (current : GridNode) (curW : ℚ)
    (hcw : 0 ≤ curW) :
    ∀ (ns : List GridNode) (st : SState), (∀ n ∈ ns, GoodPair f current n) →
      LoopInv f starts st → (st.cameFrom.isKey current ∨ current ∈ starts) →
      LoopInv f starts (ns.foldl (f.expandOne current curW) st) := by
  intro ns
  induction ns with
  | nil => intro st _ hInv _; exact hInv
  | cons n rest ih =>
    intro st hns hInv hcur
    simp only [List.foldl_cons]
    have hstep := expandOne_inv f starts hw current n curW st hInv hcw hcur
      (hns n (List.mem_cons_self _ _))
    exact ih _ (fun m hm => hns m (List.mem_cons_of_mem _ hm)) hstep.1 hstep.2

theorem stepState_inv (f : Finder) (starts : List GridNode)
    (hw : 0 ≤ f.router.linkPenaltyWeight) (current : GridNode) (curW : ℚ)
    (st : SState) (hInv : LoopInv f starts st) (hcw : 0 ≤ curW)
    (hcur : st.cameFrom.isKey current ∨ current ∈ starts) :
    LoopInv f starts (f.stepState current curW st) := by
  unfold Finder.stepState
  exact foldExpand_inv f starts hw current curW hcw _ st
    (fun n hn => neighbours_sound f st.cameFrom current n hn) hInv hcur

theorem findD_weights_nonneg (st : SState) (hInv : ∀ p ∈ st.weights, 0 ≤ p.2)
    (current : GridNode) : 0 ≤ st.weights.findD current 0 := by
  unfold AList.findD
  rcases hfind : st.weights.find? current with _ | w
  · norm_num
  · exact hInv (current, w) (AList.find?_some_mem hfind)

theorem runLoop_inv (f : Finder) (starts : List GridNode)
    (hw : 0 ≤ f.router.linkPenaltyWeight) :
    ∀ (fuel : Nat) (st : SState), LoopInv f starts st →
      LoopInv f starts (f.runLoop st fuel).1 ∧
      (∀ rt, (f.runLoop st fuel).2 = Except.ok (some rt) →
        ∃ (current : GridNode) (st1 : SState),
          LoopInv f starts st1 ∧
          current.via = f.goal.via ∧
          (current.gridPos = f.goal.gridPos ∨
            f.router.nodes.findD current.gridPos "" = f.goalNode) ∧
          (st1.cameFrom.isKey current ∨ current ∈ starts) ∧
          f.buildRoute st1.cameFrom current (st1.weights.findD current 0) =
            Except.ok (some rt)) := by
  intro fuel
  induction fuel with
  | zero =>
    intro st h
    refine ⟨h, ?_⟩
    intro rt hrt
    simp [Finder.runLoop] at hrt
  | succ fuel ih =>
    intro st h
    rw [Finder.runLoop]
    rcases hpop : st.openSet.pop with _ | q
    · exact ⟨h, by intro rt hrt; simp at hrt⟩
    · obtain ⟨current, rest⟩ := q
      have hps := MinHeap.pop_spec hpop
      have hInv2 : LoopInv f starts { st with openSet := rest } :=
        { tracePri := h.tracePri
          traceG := h.traceG
          wNonneg := h.wNonneg
          cfGood := h.cfGood
          cfClosed := h.cfClosed
          heapOK := fun q hq => h.heapOK q (hps.2 q hq) }
      have hcur : st.cameFrom.isKey current ∨ current ∈ starts := by
        obtain ⟨pri, hmem⟩ := hps.1
        exact h.heapOK (current, pri) hmem
      dsimp only
      split
      · next hacc =>
        refine ⟨hInv2, ?_⟩
        intro rt hrt
        exact ⟨current, { st with openSet := rest }, hInv2, hacc.1, hacc.2, hcur, hrt⟩
      · have hcw : 0 ≤ ({ st with openSet := rest } : SState).weights.findD current 0 :=
          findD_weights_nonneg _ hInv2.wNonneg current
        exact ih _ (stepState_inv f starts hw current _ _ hInv2 hcw hcur)

/-! ## From the loop invariant to routeFinder.run -/

theorem st0_props (sps vias : List GridPos) :
    ∀ (l : List GridPos) (st : SState),
      (∀ p ∈ l, p ∈ sps) →
      st.cameFrom = [] → st.trace = [] →
      (∀ p ∈ st.weights, 0 ≤ p.2) →
      (∀ q ∈ st.openSet.data, q.1 ∈ startNodesOf sps vias) →
      ((l.foldl (fun st pos =>
          { st with
            openSet := st.openSet.push ⟨pos, 0, 0, (vias.length : Int)⟩ 0
            weights := st.weights.insert ⟨pos, 0, 0, (vias.length : Int)⟩ 0 }) st).cameFrom = []) ∧
      ((l.foldl (fun st pos =>
          { st with
            openSet := st.openSet.push ⟨pos, 0, 0, (vias.length : Int)⟩ 0
            weights := st.weights.insert ⟨pos, 0, 0, (vias.length : Int)⟩ 0 }) st).trace = []) ∧
      (∀ p ∈ (l.foldl (fun st pos =>
          { st with
            openSet := st.openSet.push ⟨pos, 0, 0, (vias.length : Int)⟩ 0
            weights := st.weights.insert ⟨pos, 0, 0, (vias.length : Int)⟩ 0 }) st).weights, 0 ≤ p.2) ∧
      (∀ q ∈ (l.foldl (fun st pos =>
          { st with
            openSet := st.openSet.push ⟨pos, 0, 0, (vias.length : Int)⟩ 0
            weights := st.weights.insert ⟨pos, 0, 0, (vias.length : Int)⟩ 0 }) st).openSet.data,
        q.1 ∈ startNodesOf sps vias) := by
  intro l
  induction l with
  | nil =>
    intro st _ h1 h2 h3 h4
    exact ⟨h1, h2, h3, h4⟩
  | cons pos rest ih =>
    intro st hsub h1 h2 h3 h4
    simp only [List.foldl_cons]
    refine ih _ (fun p hp => hsub p (List.mem_cons_of_mem _ hp)) h1 h2 ?_ ?_
    · intro p hp
      rcases AList.mem_insert hp with h | h
      · exact h3 p h
      · rw [h]
    · intro q hq
      rcases MinHeap.mem_push hq with h | h
      · exact h4 q h
      · rw [h]
        exact List.mem_map.mpr ⟨pos, hsub pos (List.mem_cons_self _ _), rfl⟩

theorem run_spec (f : Finder) (sps : List GridPos) (goal : GridPos)
    (vias : List GridPos) (hw : 0 ≤ f.router.linkPenaltyWeight) :
    (∀ ev ∈ (f.run sps goal vias).2,
      ev.pri = f32ToInt ((ev.g + ev.h) * 100) ∧ 0 ≤ ev.g) ∧
    (∀ rt, (f.run sps goal vias).1 = Except.ok (some rt) →
      ∃ (current : GridNode) (st1 : SState),
        LoopInv (f.prepared goal vias) (startNodesOf sps vias) st1 ∧
        current.via = 0 ∧
        (current.gridPos = goal ∨
          f.router.nodes.findD current.gridPos "" = f.goalNode) ∧
        (st1.cameFrom.isKey current ∨ current ∈ startNodesOf sps vias) ∧
        (f.prepared goal vias).buildRoute st1.cameFrom current
          (st1.weights.findD current 0) = Except.ok (some rt)) := by
  unfold Finder.run
  dsimp only
  split
  · constructor
    · intro ev hev
      simp at hev
    · intro rt hrt
      simp at hrt
  · have hst0 := st0_props sps vias sps
      ⟨[], [], ⟨[]⟩, []⟩ (fun p hp => hp) rfl rfl
      (by intro p hp; simp at hp) (by intro q hq; simp [MinHeap.isEmptyQ] at hq)
    set st0 : SState := sps.foldl (fun st pos =>
        { st with
          openSet := st.openSet.push ⟨pos, 0, 0, (vias.length : Int)⟩ 0
          weights := st.weights.insert ⟨pos, 0, 0, (vias.length : Int)⟩ 0 })
        ⟨[], [], ⟨[]⟩, []⟩ with hst0def
    have hInv0 : LoopInv (f.prepared goal vias) (startNodesOf sps vias) st0 :=
      { tracePri := by rw [hst0.2.1]; intro ev hev; simp at hev
        traceG := by rw [hst0.2.1]; intro ev hev; simp at hev
        wNonneg := hst0.2.2.1
        cfGood := by rw [hst0.1]; intro p hp; simp at hp
        cfClosed := by rw [hst0.1]; intro p hp; simp at hp
        heapOK := fun q hq => Or.inr (hst0.2.2.2 q hq) }
    have hloop := runLoop_inv (f.prepared goal vias) (startNodesOf sps vias)
      hw searchLimit st0 hInv0
    constructor
    · intro ev hev
      exact ⟨(hloop.1.tracePri ev hev), (hloop.1.traceG ev hev)⟩
    · intro rt hrt
      obtain ⟨current, st1, h1, h2, h3, h4, h5⟩ := hloop.2 rt hrt
      exact ⟨current, st1, h1, h2, h3, h4, h5⟩

/-- C2 (amended): every priority pushed by the search loop is the Go
truncation toward zero of (g + h) * 100 — equivalently its floor
whenever the heuristic is nonnegative, the accumulated weight g being
nonnegative throughout (given a nonnegative penalty weight, as set by
NewLinkRouter). -/
theorem run_push_priority_truncates (f : Finder) (sps : List GridPos)
    (goal : GridPos) (vias : List GridPos)
    (hw : 0 ≤ f.router.linkPenaltyWeight) :
    ∀ ev ∈ (f.run sps goal vias).2,
      ev.pri = f32ToInt ((ev.g + ev.h) * 100) ∧ 0 ≤ ev.g ∧
      (0 ≤ ev.h → ev.pri = ⌊(ev.g + ev.h) * 100⌋) := by
  intro ev hev
  have h := (run_spec f sps goal vias hw).1 ev hev
  refine ⟨h.1, h.2, ?_⟩
  intro hh
  rw [h.1]
  exact f32ToInt_eq_floor (mul_nonneg (add_nonneg h.2 hh) (by norm_num))

/-- C2: counterexample. Routing link "L" of the concrete two-node topology,
the search pushes a state with accumulated weight g = 31/16 and heuristic
h = 2 under priority 393, yet round((g + h) * 100) = round(393.75) = 394:
the conversion truncates toward zero, it does not round to nearest. -/
theorem push_priority_not_round_ceg :
    (⟨31/16, 2, 393⟩ : PushEv) ∈ (finderCeg2.run [⟨0, 0⟩] ⟨3, 0⟩ []).2 ∧
    specRound (((31 : ℚ)/16 + 2) * 100) = 394 ∧ (393 : Int) ≠ 394 :=
  ⟨by decide, by decide, by decide⟩

theorem run_push_priority_truncates_witness :
    0 ≤ finderCeg2.router.linkPenaltyWeight ∧
    ((⟨31/16, 2, 393⟩ : PushEv) ∈ (finderCeg2.run [⟨0, 0⟩] ⟨3, 0⟩ []).2) ∧
    ((393 : Int) = f32ToInt (((31 : ℚ)/16 + 2) * 100) ∧ 0 ≤ ((31 : ℚ)/16) ∧
      (0 ≤ (2 : ℚ) → (393 : Int) = ⌊(((31 : ℚ)/16 + 2) * 100)⌋)) :=
  ⟨by decide, by decide,
    run_push_priority_truncates finderCeg2 [⟨0, 0⟩] ⟨3, 0⟩ [] (by decide)
      ⟨31/16, 2, 393⟩ (by decide)⟩

theorem weight_occupancy_penalty_witness :
    (finderW.weightParts [] ⟨⟨0, 0⟩, 1, 0, 0⟩ ⟨⟨9, 9⟩, 1, 0, 0⟩).2 = 0 ∧
    (penLoop finderW.linkId ["L2", "L3", "L"] (0, 1)).1 = 1 + 1/2 ∧
    (NewLinkRouter topoCeg2 ["A", "B"] ["L", "L2", "L3"]).linkPenaltyWeight = 10 := by
  refine ⟨(weight_occupancy_penalty finderW []
      ⟨⟨0, 0⟩, 1, 0, 0⟩ ⟨⟨9, 9⟩, 1, 0, 0⟩).1 (by decide), ?_,
    (weight_occupancy_penalty finderW []
      ⟨⟨0, 0⟩, 1, 0, 0⟩ ⟨⟨9, 9⟩, 1, 0, 0⟩).2.2.2 topoCeg2 ["A", "B"] ["L", "L2", "L3"]⟩
  rw [(weight_occupancy_penalty finderW []
      ⟨⟨0, 0⟩, 1, 0, 0⟩ ⟨⟨9, 9⟩, 1, 0, 0⟩).2.1 ["L2", "L3", "L"]]
  norm_num [finderW]
  have hlen : (List.filter (fun l => !decide (l = "L")) ["L2", "L3", "L"]).length = 2 := rfl
  rw [hlen]
  rw [Finset.sum_range_succ, Finset.sum_range_one]
  norm_num

/-! ## Frame lemmas for the routing passes (C3, C9) -/

theorem buildRoute_route_id (f : Finder) (cf : AList GridNode GridNode)
    (pos : GridNode) (w : ℚ) (rt : Route)
    (h : f.buildRoute cf pos w = Except.ok (some rt)) : rt.id = f.linkId := by
  unfold Finder.buildRoute at h
  dsimp only at h
  split at h
  · simp at h
  · split at h
    · simp at h
    · injection h with h
      injection h with h
      rw [← h]

theorem runLoop_route_id (f : Finder) :
    ∀ (fuel : Nat) (st : SState) (rt : Route),
      (f.runLoop st fuel).2 = Except.ok (some rt) → rt.id = f.linkId := by
  intro fuel
  induction fuel with
  | zero => intro st rt h; simp [Finder.runLoop] at h
  | succ fuel ih =>
    intro st rt h
    rw [Finder.runLoop] at h
    split at h
    · simp at h
    · dsimp only at h
      split at h
      · exact buildRoute_route_id _ _ _ _ _ h
      · exact ih _ _ h

theorem run_route_id (f : Finder) (sps : List GridPos) (goal : GridPos)
    (vias : List GridPos) (rt : Route)
    (h : (f.run sps goal vias).1 = Except.ok (some rt)) : rt.id = f.linkId := by
  unfold Finder.run at h
  dsimp only at h
  split at h
  · simp at h
  · dsimp only at h
    exact runLoop_route_id (f.prepared goal vias) _ _ _ h

theorem routeLink_route_id (r : LinkRouter) (id : LinkId) (rt : Route)
    (h : (r.routeLink id).1 = Except.ok (some rt)) : rt.id = id := by
  unfold LinkRouter.routeLink at h
  split at h
  · simp at h
  · split at h
    · simp at h
    · split at h
      · simp at h
      · split at h
        · simp at h
        · split at h
          · simp at h
          · exact run_route_id _ _ _ _ _ h

theorem addLink_topo (r : LinkRouter) (p : GridPos) (id : LinkId) :
    (r.addLink p id).topo = r.topo := by
  simp only [LinkRouter.addLink]
  split <;> rfl

theorem removeLink_topo (r : LinkRouter) (p : GridPos) (id : LinkId) :
    (r.removeLink p id).topo = r.topo := by
  simp only [LinkRouter.removeLink]
  split
  · rfl
  · split <;> rfl

theorem addRoute_topo (r : LinkRouter) (id : LinkId) (path : Polyline) :
    (r.addRoute id path).topo = r.topo :=
  foldl_preserve _ LinkRouter.topo (fun s p => addLink_topo s _ id) path r

theorem removeRoute_topo (r : LinkRouter) (id : LinkId) (path : Polyline) :
    (r.removeRoute id path).topo = r.topo :=
  foldl_preserve _ LinkRouter.topo (fun s p => removeLink_topo s _ id) path r

theorem moveRoute_topo (r : LinkRouter) (id : LinkId) (op np : Polyline) :
    (r.moveRoute id op np).topo = r.topo := by
  unfold LinkRouter.moveRoute
  rw [addRoute_topo, removeRoute_topo]

theorem setLinkRoute_find?_ne (t : Topology) {id id' : LinkId} (p : Polyline)
    (h : id ≠ id') :
    (t.setLinkRoute id' p).Links.find? id = t.Links.find? id := by
  unfold Topology.setLinkRoute
  split
  · rfl
  · exact AList.find?_insert_ne _ _ h

theorem mem_insertSorted {A : Type} (cmp : A → A → Int) (a x : A) :
    ∀ l : List A, x ∈ insertSorted cmp a l → x = a ∨ x ∈ l := by
  intro l
  induction l with
  | nil => intro h; simp [insertSorted] at h; exact Or.inl h
  | cons b bs ih =>
    intro h
    rw [insertSorted] at h
    split at h
    · rcases List.mem_cons.mp h with h | h
      · exact Or.inr (List.mem_cons.mpr (Or.inl h))
      · rcases ih h with h | h
        · exact Or.inl h
        · exact Or.inr (List.mem_cons.mpr (Or.inr h))
    · rcases List.mem_cons.mp h with h | h
      · exact Or.inl h
      · exact Or.inr h

theorem mem_sortStableFunc {A : Type} (cmp : A → A → Int) (x : A) :
    ∀ l : List A, x ∈ sortStableFunc cmp l → x ∈ l := by
  intro l
  induction l with
  | nil => intro h; exact h
  | cons a rest ih =>
    intro h
    rcases mem_insertSorted cmp a x _ h with h | h
    · exact List.mem_cons.mpr (Or.inl h)
    · exact List.mem_cons.mpr (Or.inr (ih h))

/-- pass1Step for a link other than id neither changes id's Link entry
nor records a route named id. -/
theorem pass1Step_frame_ne (id : LinkId) (L : Link) (a : LinkId)
    (hida : a ≠ id) (st st2 : LinkRouter × List Route)
    (hstep : pass1Step st a = Except.ok st2)
    (h1 : st.1.topo.Links.find? id = some L) (h2 : ∀ rt ∈ st.2, rt.id ≠ id) :
    st2.1.topo.Links.find? id = some L ∧ ∀ rt ∈ st2.2, rt.id ≠ id := by
  unfold pass1Step at hstep
  split at hstep
  · cases hstep; exact ⟨h1, h2⟩
  · split at hstep
    · cases hstep; exact ⟨h1, h2⟩
    · split at hstep
      · simp at hstep
      · cases hstep; exact ⟨h1, h2⟩
      · next route hroute =>
        cases hstep
        refine ⟨?_, ?_⟩
        · show (st.1.topo.setLinkRoute a route.path).Links.find? id = some L
          rw [setLinkRoute_find?_ne _ _ (fun h => hida h.symm)]
          exact h1
        · intro rt hrt
          rcases List.mem_append.mp hrt with h | h
          · exact h2 rt h
          · rw [List.mem_singleton.mp h, routeLink_route_id st.1 a route hroute]
            exact hida

/-- Through the first pass, a pre-routed link keeps its Link entry
unchanged and never appears among the collected routes. -/
theorem pass1_frame (id : LinkId) (L : Link) (hne : L.Route.length > 0) :
    ∀ (order : List LinkId) (st st' : LinkRouter × List Route),
      pass1 st order = Except.ok st' →
      st.1.topo.Links.find? id = some L → (∀ rt ∈ st.2, rt.id ≠ id) →
      st'.1.topo.Links.find? id = some L ∧ ∀ rt ∈ st'.2, rt.id ≠ id := by
  intro order
  induction order with
  | nil =>
    intro st st' h h1 h2
    injection h with h
    subst h
    exact ⟨h1, h2⟩
  | cons a rest ih =>
    intro st st' h h1 h2
    rw [pass1] at h
    split at h
    · simp at h
    · next st2 hstep =>
      by_cases hida : a = id
      · subst hida
        unfold pass1Step at hstep
        rw [h1] at hstep
        dsimp only at hstep
        rw [if_pos hne] at hstep
        injection hstep with hstep
        subst hstep
        exact ih st st' h h1 h2
      · have h12 := pass1Step_frame_ne id L a hida st st2 hstep h1 h2
        exact ih st2 st' h h12.1 h12.2

/-- pass2Step for a route named differently from id. -/
theorem pass2Step_frame (id : LinkId) (L : Link) (ir : Route) (hir : ir.id ≠ id)
    (st st2 : LinkRouter × List Route) (hstep : pass2Step st ir = Except.ok st2)
    (h1 : st.1.topo.Links.find? id = some L) (h2 : ∀ rt ∈ st.2, rt.id ≠ id) :
    st2.1.topo.Links.find? id = some L ∧ ∀ rt ∈ st2.2, rt.id ≠ id := by
  unfold pass2Step at hstep
  split at hstep
  · simp at hstep
  · cases hstep; exact ⟨h1, h2⟩
  · next route hroute =>
    have hrid : route.id = ir.id := routeLink_route_id _ _ _ hroute
    dsimp only at hstep
    split at hstep
    · cases hstep
      refine ⟨?_, h2⟩
      show (st.1.moveRoute route.id ir.path route.path).topo.Links.find? id = some L
      rw [moveRoute_topo]
      exact h1
    · cases hstep
      refine ⟨?_, ?_⟩
      · show ((st.1.moveRoute route.id ir.path route.path).topo.setLinkRoute
          route.id route.path).Links.find? id = some L
        rw [setLinkRoute_find?_ne _ _ (fun h => hir (hrid ▸ h.symm)), moveRoute_topo]
        exact h1
      · intro rt hrt
        rcases List.mem_append.mp hrt with h | h
        · exact h2 rt h
        · rw [List.mem_singleton.mp h, hrid]
          exact hir

theorem pass2_frame (id : LinkId) (L : Link) :
    ∀ (rts : List Route) (st st' : LinkRouter × List Route),
      (∀ rt ∈ rts, rt.id ≠ id) →
      pass2 st rts = Except.ok st' →
      st.1.topo.Links.find? id = some L → (∀ rt ∈ st.2, rt.id ≠ id) →
      st'.1.topo.Links.find? id = some L ∧ ∀ rt ∈ st'.2, rt.id ≠ id := by
  intro rts
  induction rts with
  | nil =>
    intro st st' _ h h1 h2
    injection h with h
    subst h
    exact ⟨h1, h2⟩
  | cons ir rest ih =>
    intro st st' hrts h h1 h2
    rw [pass2] at h
    split at h
    · simp at h
    · next st2 hstep =>
      have h12 := pass2Step_frame id L ir (hrts ir (List.mem_cons_self _ _))
        st st2 hstep h1 h2
      exact ih st2 st' (fun rt hrt => hrts rt (List.mem_cons_of_mem _ hrt)) h h12.1 h12.2

/-- fixRoundStep for a route named differently from id. -/
theorem fixRoundStep_frame (id : LinkId) (L : Link) (r0 : Route) (hr0 : r0.id ≠ id)
    (st st2 : LinkRouter × List Route × Bool)
    (hstep : fixRoundStep st r0 = Except.ok st2)
    (h1 : st.1.topo.Links.find? id = some L) (h2 : ∀ rt ∈ st.2.1, rt.id ≠ id) :
    st2.1.topo.Links.find? id = some L ∧ ∀ rt ∈ st2.2.1, rt.id ≠ id := by
  unfold fixRoundStep at hstep
  have happ : ∀ rt ∈ st.2.1 ++ [r0], rt.id ≠ id := by
    intro rt hrt
    rcases List.mem_append.mp hrt with h | h
    · exact h2 rt h
    · rw [List.mem_singleton.mp h]; exact hr0
  split at hstep
  · simp at hstep
  · cases hstep; exact ⟨h1, happ⟩
  · next route hroute =>
    have hrid : route.id = r0.id := routeLink_route_id _ _ _ hroute
    split at hstep
    · split at hstep
      · cases hstep; exact ⟨h1, happ⟩
      · dsimp only at hstep
        cases hstep
        refine ⟨?_, ?_⟩
        · show ((st.1.moveRoute route.id r0.path route.path).topo.setLinkRoute
            route.id route.path).Links.find? id = some L
          rw [setLinkRoute_find?_ne _ _ (fun h => hr0 (hrid ▸ h.symm)), moveRoute_topo]
          exact h1
        · intro rt hrt
          rcases List.mem_append.mp hrt with h | h
          · exact h2 rt h
          · rw [List.mem_singleton.mp h, hrid]
            exact hr0
    · cases hstep; exact ⟨h1, happ⟩

theorem fixRoundGo_frame (id : LinkId) (L : Link) :
    ∀ (rts : List Route) (st st' : LinkRouter × List Route × Bool),
      (∀ rt ∈ rts, rt.id ≠ id) →
      fixRoundGo st rts = Except.ok st' →
      st.1.topo.Links.find? id = some L → (∀ rt ∈ st.2.1, rt.id ≠ id) →
      st'.1.topo.Links.find? id = some L ∧ ∀ rt ∈ st'.2.1, rt.id ≠ id := by
  intro rts
  induction rts with
  | nil =>
    intro st st' _ h h1 h2
    injection h with h
    subst h
    exact ⟨h1, h2⟩
  | cons r0 rest ih =>
    intro st st' hrts h h1 h2
    rw [fixRoundGo] at h
    split at h
    · simp at h
    · next st2 hstep =>
      have h12 := fixRoundStep_frame id L r0 (hrts r0 (List.mem_cons_self _ _))
        st st2 hstep h1 h2
      exact ih st2 st' (fun rt hrt => hrts rt (List.mem_cons_of_mem _ hrt)) h h12.1 h12.2

theorem fixPointLoop_frame (id : LinkId) (L : Link) :
    ∀ (fuel : Nat) (r : LinkRouter) (nr : List Route) (r' : LinkRouter)
      (nr' : List Route),
      (∀ rt ∈ nr, rt.id ≠ id) →
      r.topo.Links.find? id = some L →
      fixPointLoop r nr fuel = Except.ok (r', nr') →
      r'.topo.Links.find? id = some L := by
  intro fuel
  induction fuel with
  | zero =>
    intro r nr r' nr' _ h1 h
    injection h with h
    rw [(Prod.mk.injEq _ _ _ _).mp h |>.1] at h1
    exact h1
  | succ fuel ih =>
    intro r nr r' nr' hnr h1 h
    rw [fixPointLoop] at h
    split at h
    · simp at h
    · next r2 nr2 updated hround =>
      have h12 := fixRoundGo_frame id L nr (r, [], false) (r2, nr2, updated)
        hnr hround h1 (by intro rt hrt; simp at hrt)
      split at h
      · exact ih r2 nr2 r' nr' h12.2 h12.1 h
      · injection h with h
        rw [(Prod.mk.injEq _ _ _ _).mp h |>.1] at h12
        exact h12.1

/-- C9: for every link that already has a non-empty Route when
RouteLinks is invoked, the returned router carries the link's entry —
in particular its Route field — completely unchanged: none of the three
passes re-routes or modifies a pre-routed link. -/
theorem routeLinks_preroutes_untouched (r : LinkRouter) (order : List LinkId)
    (lenF : Polyline → ℚ) (r' : LinkRouter) (id : LinkId) (L : Link)
    (hrl : r.RouteLinks order lenF = Except.ok r')
    (hfind : r.topo.GetLink id = some L) (hne : L.Route.length > 0) :
    r'.topo.GetLink id = some L := by
  unfold LinkRouter.RouteLinks at hrl
  split at hrl
  · simp at hrl
  · next st1 hpass1 =>
    have hInv1 := pass1_frame id L hne order (r, []) st1 hpass1 hfind
      (by intro rt h; simp at h)
    dsimp only at hrl
    split at hrl
    · simp at hrl
    · next st2 hpass2 =>
      have htopo : (st1.2.foldl (fun r route => r.addRoute route.id route.path)
          st1.1).topo = st1.1.topo :=
        foldl_preserve _ LinkRouter.topo
          (fun s rt => addRoute_topo s rt.id rt.path) st1.2 st1.1
      have hs1 : ∀ rt ∈ sortStableFunc cmpWeight st1.2, rt.id ≠ id :=
        fun rt h => hInv1.2 rt (mem_sortStableFunc _ _ _ h)
      have hInv2 := pass2_frame id L (sortStableFunc cmpWeight st1.2)
        (st1.2.foldl (fun r route => r.addRoute route.id route.path) st1.1, [])
        st2 hs1 hpass2 (by rw [htopo]; exact hInv1.1) (by intro rt h; simp at h)
      split at hrl
      · simp at hrl
      · next st3 hfix =>
        have hs2 : ∀ rt ∈ sortStableFunc (cmpRatio lenF) st2.2, rt.id ≠ id :=
          fun rt h => hInv2.2 rt (mem_sortStableFunc _ _ _ h)
        injection hrl with hrl
        subst hrl
        exact fixPointLoop_frame id L routeIterLimit st2.1 _ st3.1 st3.2
          hs2 hInv2.1 hfix

theorem routeLinks_preroutes_untouched_witness :
    rC9res = Except.ok rC9 ∧
    rC9.topo.GetLink "P" =
      some { Id := "P", From := "A", To := "B", Via := [],
             Route := [⟨9, 9⟩, ⟨8, 8⟩] } := by
  have hres : rC9res = Except.ok rC9 := rfl
  exact ⟨hres, routeLinks_preroutes_untouched
    (NewLinkRouter topoCeg8 ["A", "B"] ["L", "P"]) ["L", "P"] (fun _ => 0)
    rC9 "P" _ hres (by decide) (by decide)⟩

/-- A successful buildLoop only extends its accumulated path. -/
theorem buildLoop_ne_nil (cf : AList GridNode GridNode) :
    ∀ (fuel : Nat) (opt : Option GridNode) (path₀ out : List GridPos),
      buildLoop cf opt path₀ fuel = Except.ok out → path₀ ≠ [] → out ≠ [] := by
  intro fuel
  induction fuel with
  | zero =>
    intro opt path₀ out h hne
    cases opt with
    | none =>
      rw [buildLoop] at h
      injection h with h
      subst h
      exact hne
    | some c => simp [buildLoop] at h
  | succ fuel ih =>
    intro opt path₀ out h hne
    cases opt with
    | none =>
      rw [buildLoop] at h
      injection h with h
      subst h
      exact hne
    | some c =>
      rw [buildLoop] at h
      rcases hfind : cf.find? c with _ | c2
      · rw [hfind] at h
        exact ih none (path₀ ++ [c.gridPos]) out h (by simp)
      · rw [hfind] at h
        dsimp only at h
        split at h
        · simp at h
        · exact ih (some c2) (path₀ ++ [c.gridPos]) out h (by simp)

theorem buildRoute_path_ne_nil (f : Finder) (cf : AList GridNode GridNode)
    (pos : GridNode) (w : ℚ) (rt : Route)
    (h : f.buildRoute cf pos w = Except.ok (some rt)) : rt.path ≠ [] := by
  unfold Finder.buildRoute at h
  dsimp only at h
  split at h
  · simp at h
  · split at h
    · simp at h
    · next out hloop =>
      injection h with h
      injection h with h
      have hout : out ≠ [] :=
        buildLoop_ne_nil cf _ _ _ _ hloop (by simp)
      rw [← h]
      dsimp only
      rcases hrev : out.reverse.map GridPos.toVec with _ | ⟨x, xs⟩
      · simp at hrev
        exact absurd hrev hout
      · simp [Polyline.fix]

theorem runLoop_path_ne_nil (f : Finder) :
    ∀ (fuel : Nat) (st : SState) (rt : Route),
      (f.runLoop st fuel).2 = Except.ok (some rt) → rt.path ≠ [] := by
  intro fuel
  induction fuel with
  | zero => intro st rt h; simp [Finder.runLoop] at h
  | succ fuel ih =>
    intro st rt h
    rw [Finder.runLoop] at h
    split at h
    · simp at h
    · dsimp only at h
      split at h
      · exact buildRoute_path_ne_nil _ _ _ _ _ h
      · exact ih _ _ h

theorem run_path_ne_nil (f : Finder) (sps : List GridPos) (goal : GridPos)
    (vias : List GridPos) (rt : Route)
    (h : (f.run sps goal vias).1 = Except.ok (some rt)) : rt.path ≠ [] := by
  unfold Finder.run at h
  dsimp only at h
  split at h
  · simp at h
  · dsimp only at h
    exact runLoop_path_ne_nil (f.prepared goal vias) _ _ _ h

theorem routeLink_path_ne_nil (r : LinkRouter) (id : LinkId) (rt : Route)
    (h : (r.routeLink id).1 = Except.ok (some rt)) : rt.path ≠ [] := by
  unfold LinkRouter.routeLink at h
  split at h
  · simp at h
  · split at h
    · simp at h
    · split at h
      · simp at h
      · split at h
        · simp at h
        · split at h
          · simp at h
          · exact run_path_ne_nil _ _ _ _ _ h

/-- Writing a route that the search found for id itself keeps
KeptOrRouted: the updated entry is exactly L with the new Route. -/
theorem setLinkRoute_kor (id : LinkId) (L : Link) (t : Topology)
    (r2 : LinkRouter) (route : Route)
    (hsucc : (r2.routeLink id).1 = Except.ok (some route))
    (hnp : route.path ≠ [])
    (h : KeptOrRouted id L t.Links) :
    KeptOrRouted id L (t.setLinkRoute id route.path).Links := by
  unfold KeptOrRouted at h ⊢
  unfold Topology.setLinkRoute
  rcases h with hL | ⟨r3, route3, hs3, hn3, hL⟩
  · rw [hL]
    exact Or.inr ⟨r2, route, hsucc, hnp, AList.find?_insert_self _ _ _⟩
  · rw [hL]
    exact Or.inr ⟨r2, route, hsucc, hnp, AList.find?_insert_self _ _ _⟩

theorem setLinkRoute_kor_ne (id : LinkId) (L : Link) (t : Topology)
    (id' : LinkId) (p : Polyline) (hne : id ≠ id')
    (h : KeptOrRouted id L t.Links) :
    KeptOrRouted id L (t.setLinkRoute id' p).Links := by
  unfold KeptOrRouted at h ⊢
  rw [setLinkRoute_find?_ne t p hne]
  exact h

theorem pass1Step_kor (id : LinkId) (L : Link) (a : LinkId)
    (st st2 : LinkRouter × List Route) (hstep : pass1Step st a = Except.ok st2)
    (h : KeptOrRouted id L st.1.topo.Links) :
    KeptOrRouted id L st2.1.topo.Links := by
  unfold pass1Step at hstep
  split at hstep
  · cases hstep; exact h
  · split at hstep
    · cases hstep; exact h
    · split at hstep
      · simp at hstep
      · cases hstep; exact h
      · next route hroute =>
        cases hstep
        by_cases hida : a = id
        · subst hida
          exact setLinkRoute_kor a L st.1.topo st.1 route hroute
            (routeLink_path_ne_nil _ _ _ hroute) h
        · exact setLinkRoute_kor_ne id L st.1.topo a route.path
            (fun he => hida he.symm) h

theorem pass1_kor (id : LinkId) (L : Link) :
    ∀ (order : List LinkId) (st st' : LinkRouter × List Route),
      pass1 st order = Except.ok st' →
      KeptOrRouted id L st.1.topo.Links →
      KeptOrRouted id L st'.1.topo.Links := by
  intro order
  induction order with
  | nil =>
    intro st st' h hK
    injection h with h
    subst h
    exact hK
  | cons a rest ih =>
    intro st st' h hK
    rw [pass1] at h
    split at h
    · simp at h
    · next st2 hstep =>
      exact ih st2 st' h (pass1Step_kor id L a st st2 hstep hK)

theorem pass2Step_kor (id : LinkId) (L : Link) (ir : Route)
    (st st2 : LinkRouter × List Route) (hstep : pass2Step st ir = Except.ok st2)
    (h : KeptOrRouted id L st.1.topo.Links) :
    KeptOrRouted id L st2.1.topo.Links := by
  unfold pass2Step at hstep
  split at hstep
  · simp at hstep
  · cases hstep; exact h
  · next route hroute =>
    dsimp only at hstep
    have hKmove : KeptOrRouted id L
        (st.1.moveRoute route.id ir.path route.path).topo.Links := by
      unfold KeptOrRouted at h ⊢
      rw [moveRoute_topo]
      exact h
    split at hstep
    · cases hstep; exact hKmove
    · cases hstep
      by_cases hrid : route.id = id
      · have hsucc : (st.1.routeLink id).1 = Except.ok (some route) := by
          have hir : ir.id = id :=
            ((routeLink_route_id _ _ _ hroute).symm).trans hrid
          rw [← hir]
          exact hroute
        rw [hrid] at hKmove ⊢
        exact setLinkRoute_kor id L _ st.1 route hsucc
          (routeLink_path_ne_nil _ _ _ hsucc) hKmove
      · exact setLinkRoute_kor_ne id L _ route.id route.path
          (fun he => hrid he.symm) hKmove

theorem pass2_kor (id : LinkId) (L : Link) :
    ∀ (rts : List Route) (st st' : LinkRouter × List Route),
      pass2 st rts = Except.ok st' →
      KeptOrRouted id L st.1.topo.Links →
      KeptOrRouted id L st'.1.topo.Links := by
  intro rts
  induction rts with
  | nil =>
    intro st st' h hK
    injection h with h
    subst h
    exact hK
  | cons ir rest ih =>
    intro st st' h hK
    rw [pass2] at h
    split at h
    · simp at h
    · next st2 hstep =>
      exact ih st2 st' h (pass2Step_kor id L ir st st2 hstep hK)

theorem fixRoundStep_kor (id : LinkId) (L : Link) (r0 : Route)
    (st st2 : LinkRouter × List Route × Bool)
    (hstep : fixRoundStep st r0 = Except.ok st2)
    (h : KeptOrRouted id L st.1.topo.Links) :
    KeptOrRouted id L st2.1.topo.Links := by
  unfold fixRoundStep at hstep
  split at hstep
  · simp at hstep
  · cases hstep; exact h
  · next route hroute =>
    split at hstep
    · split at hstep
      · cases hstep; exact h
      · dsimp only at hstep
        cases hstep
        have hKmove : KeptOrRouted id L
            (st.1.moveRoute route.id r0.path route.path).topo.Links := by
          unfold KeptOrRouted at h ⊢
          rw [moveRoute_topo]
          exact h
        by_cases hrid : route.id = id
        · have hsucc : (st.1.routeLink id).1 = Except.ok (some route) := by
            have hir : r0.id = id :=
              ((routeLink_route_id _ _ _ hroute).symm).trans hrid
            rw [← hir]
            exact hroute
          rw [hrid] at hKmove ⊢
          exact setLinkRoute_kor id L _ st.1 route hsucc
            (routeLink_path_ne_nil _ _ _ hsucc) hKmove
        · exact setLinkRoute_kor_ne id L _ route.id route.path
            (fun he => hrid he.symm) hKmove
    · cases hstep; exact h

theorem fixRoundGo_kor (id : LinkId) (L : Link) :
    ∀ (rts : List Route) (st st' : LinkRouter × List Route × Bool),
      fixRoundGo st rts = Except.ok st' →
      KeptOrRouted id L st.1.topo.Links →
      KeptOrRouted id L st'.1.topo.Links := by
  intro rts
  induction rts with
  | nil =>
    intro st st' h hK
    injection h with h
    subst h
    exact hK
  | cons r0 rest ih =>
    intro st st' h hK
    rw [fixRoundGo] at h
    split at h
    · simp at h
    · next st2 hstep =>
      exact ih st2 st' h (fixRoundStep_kor id L r0 st st2 hstep hK)

theorem fixPointLoop_kor (id : LinkId) (L : Link) :
    ∀ (fuel : Nat) (r : LinkRouter) (nr : List Route) (r' : LinkRouter)
      (nr' : List Route),
      KeptOrRouted id L r.topo.Links →
      fixPointLoop r nr fuel = Except.ok (r', nr') →
      KeptOrRouted id L r'.topo.Links := by
  intro fuel
  induction fuel with
  | zero =>
    intro r nr r' nr' hK h
    injection h with h
    rw [((Prod.mk.injEq _ _ _ _).mp h).1] at hK
    exact hK
  | succ fuel ih =>
    intro r nr r' nr' hK h
    rw [fixPointLoop] at h
    split at h
    · simp at h
    · next r2 nr2 updated hround =>
      have hK2 : KeptOrRouted id L r2.topo.Links :=
        fixRoundGo_kor id L nr (r, [], false) (r2, nr2, updated) hround hK
      split at h
      · exact ih r2 nr2 r' nr' hK2 h
      · injection h with h
        rw [((Prod.mk.injEq _ _ _ _).mp h).1] at hK2
        exact hK2

/-- C3: the iteration cap is searchLimit = 8192; the search loop with
its fuel exhausted (the cap reached) returns ok none, as it does when
the open set is exhausted — no route, not an error and not divergence —
and RouteLinks then leaves the affected link's Route empty: a link
whose entry starts with an empty Route either keeps that entry (and its
empty Route) completely unchanged in the result, or its resulting entry
records the nonempty path of a route that a routeLink call for this
very link produced — so when every search for the link finds no route,
its Route field stays empty. -/
theorem search_exhaustion_no_route :
    searchLimit = 8192 ∧
    (∀ (f : Finder) (st : SState), f.runLoop st 0 = (st, Except.ok none)) ∧
    (∀ (f : Finder) (st : SState) (fuel : Nat), st.openSet.pop = none →
      f.runLoop st fuel = (st, Except.ok none)) ∧
    (∀ (r : LinkRouter) (order : List LinkId) (lenF : Polyline → ℚ)
      (r' : LinkRouter) (id : LinkId) (L : Link),
      r.RouteLinks order lenF = Except.ok r' →
      r.topo.GetLink id = some L → L.Route = [] →
      r'.topo.GetLink id = some L ∨
      ∃ (r2 : LinkRouter) (route : Route),
        (r2.routeLink id).1 = Except.ok (some route) ∧ route.path ≠ [] ∧
        r'.topo.GetLink id = some { L with Route := route.path }) := by
  refine ⟨rfl, fun f st => rfl, ?_, ?_⟩
  · intro f st fuel hpop
    cases fuel with
    | zero => rfl
    | succ n => rw [Finder.runLoop, hpop]
  · intro r order lenF r' id L hrl hfind hE
    unfold LinkRouter.RouteLinks at hrl
    split at hrl
    · simp at hrl
    · next st1 hpass1 =>
      have hK1 : KeptOrRouted id L st1.1.topo.Links :=
        pass1_kor id L order (r, []) st1 hpass1 (Or.inl hfind)
      dsimp only at hrl
      split at hrl
      · simp at hrl
      · next st2 hpass2 =>
        have htopo : (st1.2.foldl (fun r route => r.addRoute route.id route.path)
            st1.1).topo = st1.1.topo :=
          foldl_preserve _ LinkRouter.topo
            (fun s rt => addRoute_topo s rt.id rt.path) st1.2 st1.1
        have hK2 : KeptOrRouted id L st2.1.topo.Links :=
          pass2_kor id L (sortStableFunc cmpWeight st1.2)
            (st1.2.foldl (fun r route => r.addRoute route.id route.path) st1.1, [])
            st2 hpass2 (by unfold KeptOrRouted at hK1 ⊢; rw [htopo]; exact hK1)
        split at hrl
        · simp at hrl
        · next st3 hfix =>
          injection hrl with hrl
          subst hrl
          exact fixPointLoop_kor id L routeIterLimit st2.1
            (sortStableFunc (cmpRatio lenF) st2.2) st3.1 st3.2 hK2 hfix

theorem search_exhaustion_no_route_witness :
    (finderW.runLoop ⟨[], [], ⟨[]⟩, []⟩ 0 = (⟨[], [], ⟨[]⟩, []⟩, Except.ok none)) ∧
    (finderW.runLoop ⟨[], [], ⟨[]⟩, []⟩ 7 = (⟨[], [], ⟨[]⟩, []⟩, Except.ok none)) ∧
    (rC3res = Except.ok rC3 ∧
      (rC3.topo.GetLink "Q" =
        some { Id := "Q", From := "A", To := "Z", Via := [], Route := [] } ∨
       ∃ (r2 : LinkRouter) (route : Route),
         (r2.routeLink "Q").1 = Except.ok (some route) ∧ route.path ≠ [] ∧
         rC3.topo.GetLink "Q" =
           some { Id := "Q", From := "A", To := "Z", Via := [],
                  Route := route.path })) ∧
    rC3.topo.GetLink "Q" =
      some { Id := "Q", From := "A", To := "Z", Via := [], Route := [] } := by
  have hres : rC3res = Except.ok rC3 := rfl
  exact ⟨search_exhaustion_no_route.2.1 finderW _,
    search_exhaustion_no_route.2.2.1 finderW _ 7 rfl,
    ⟨hres,
      search_exhaustion_no_route.2.2.2 (NewLinkRouter topoCeg3 ["A", "B"] ["L", "Q"])
        ["L", "Q"] (fun _ => 0) rC3 "Q" _ hres (by decide) rfl⟩,
    by decide⟩

/-- C7: in the fix-point pass, one step replaces a link's recorded
route, occupancy (moveRoute) and topology entry only when the re-routed
weight is strictly lower than the recorded one — otherwise the router
is untouched and the old record is kept, so recorded weights never
increase — and the loop stops as soon as a round reports no update,
or when the fuel routeIterLimit = 32 is exhausted. -/
theorem fixpoint_pass_props :
    routeIterLimit = 32 ∧
    (∀ (st : LinkRouter × List Route × Bool) (rt : Route)
       (st' : LinkRouter × List Route × Bool),
      fixRoundStep st rt = Except.ok st' →
      (st'.1 = st.1 ∧ st'.2.1 = st.2.1 ++ [rt] ∧ st'.2.2 = st.2.2) ∨
      (∃ route : Route, (st.1.routeLink rt.id).1 = Except.ok (some route) ∧
        route.weight < rt.weight ∧
        st'.1 = { st.1.moveRoute route.id rt.path route.path with
                  topo := (st.1.moveRoute route.id rt.path
                    route.path).topo.setLinkRoute route.id route.path } ∧
        st'.2.1 = st.2.1 ++ [route] ∧ st'.2.2 = true)) ∧
    (∀ (r : LinkRouter) (nr : List Route) (fuel : Nat) (r2 : LinkRouter)
       (nr2 : List Route),
      fixRound r nr = Except.ok (r2, nr2, false) →
      fixPointLoop r nr (fuel + 1) = Except.ok (r2, nr2)) ∧
    (∀ (r : LinkRouter) (nr : List Route),
      fixPointLoop r nr 0 = Except.ok (r, nr)) := by
  refine ⟨rfl, ?_, ?_, fun r nr => rfl⟩
  · intro st rt st' hstep
    unfold fixRoundStep at hstep
    split at hstep
    · simp at hstep
    · cases hstep; exact Or.inl ⟨rfl, rfl, rfl⟩
    · next route hroute =>
      split at hstep
      · next hlt =>
        split at hstep
        · cases hstep; exact Or.inl ⟨rfl, rfl, rfl⟩
        · dsimp only at hstep
          cases hstep
          exact Or.inr ⟨route, hroute, hlt, rfl, rfl, rfl⟩
      · cases hstep; exact Or.inl ⟨rfl, rfl, rfl⟩
  · intro r nr fuel r2 nr2 h
    rw [fixPointLoop, h]
    simp

theorem fixpoint_pass_props_witness :
    fixRoundStep (routerQ, [], false) rtQ = Except.ok (routerQ, [rtQ], false) ∧
    fixRound routerQ [rtQ] = Except.ok (routerQ, [rtQ], false) ∧
    fixPointLoop routerQ [rtQ] (7 + 1) = Except.ok (routerQ, [rtQ]) ∧
    fixPointLoop routerQ [rtQ] 0 = Except.ok (routerQ, [rtQ]) ∧
    ((routerQ = routerQ ∧ [rtQ] = [] ++ [rtQ] ∧ false = false) ∨
      (∃ route : Route, (routerQ.routeLink rtQ.id).1 = Except.ok (some route) ∧
        route.weight < rtQ.weight ∧
        routerQ = { routerQ.moveRoute route.id rtQ.path route.path with
                    topo := (routerQ.moveRoute route.id rtQ.path
                      route.path).topo.setLinkRoute route.id route.path } ∧
        [rtQ] = [] ++ [route] ∧ false = true)) := by
  have hstep : fixRoundStep (routerQ, [], false) rtQ =
      Except.ok (routerQ, [rtQ], false) := rfl
  have hround : fixRound routerQ [rtQ] = Except.ok (routerQ, [rtQ], false) := rfl
  exact ⟨hstep, hround,
    fixpoint_pass_props.2.2.1 routerQ [rtQ] 7 routerQ [rtQ] hround,
    fixpoint_pass_props.2.2.2 routerQ [rtQ],
    fixpoint_pass_props.2.1 (routerQ, [], false) rtQ (routerQ, [rtQ], false) hstep⟩

/-! ## Label placement: C10 -/

theorem candidateFold_occupied (nodes : AList NodeId Node)
    (fill : AList GridPos Bool) (nodeOrder : List NodeId) (id : NodeId)
    (pos : GridPos) :
    ∀ (l : List direction) (b : Option (direction × ℚ)),
      (∀ d ∈ l, fill.isKey (d.moveGridPos pos) = true) →
      l.foldl (labelCandidateFold nodes fill nodeOrder id pos) b = b := by
  intro l
  induction l with
  | nil => intro b _; rfl
  | cons i rest ih =>
    intro b hocc
    rw [List.foldl_cons]
    have hstep : labelCandidateFold nodes fill nodeOrder id pos b i = b := by
      unfold labelCandidateFold
      rw [if_pos (hocc i (List.mem_cons_self _ _))]
    rw [hstep]
    exact ih b (fun d hd => hocc d (List.mem_cons_of_mem _ hd))

theorem candidateFold_some (nodes : AList NodeId Node)
    (fill : AList GridPos Bool) (nodeOrder : List NodeId) (id : NodeId)
    (pos : GridPos) :
    ∀ (l : List direction) (b : Option (direction × ℚ)) (p : direction × ℚ),
      l.foldl (labelCandidateFold nodes fill nodeOrder id pos) b = some p →
      b = some p ∨ (p.1 ∈ l ∧ fill.isKey (p.1.moveGridPos pos) = false) := by
  intro l
  induction l with
  | nil => intro b p h; exact Or.inl h
  | cons i rest ih =>
    intro b p h
    rw [List.foldl_cons] at h
    rcases ih _ p h with h1 | h1
    · unfold labelCandidateFold at h1
      dsimp only at h1
      by_cases hkey : fill.isKey (i.moveGridPos pos) = true
      · rw [if_pos hkey] at h1
        exact Or.inl h1
      · rw [if_neg hkey] at h1
        cases b with
        | none =>
          injection h1 with h1
          rw [← h1]
          exact Or.inr ⟨List.mem_cons_self _ _, by simpa using hkey⟩
        | some bs =>
          dsimp only at h1
          split at h1
          · injection h1 with h1
            rw [← h1]
            exact Or.inr ⟨List.mem_cons_self _ _, by simpa using hkey⟩
          · exact Or.inl h1
    · exact Or.inr ⟨List.mem_cons_of_mem _ h1.1, h1.2⟩

/-- C10: for a node with a position and no preset label direction,
the placement step picks only a direction whose target cell is
unoccupied at that moment — if all 8 candidate cells are occupied the
node is left without a label, a normal outcome — and a chosen cell is
marked occupied for the nodes processed afterwards; PlaceLabels is the
fold of this step over the nodes, started from the recorded fill
grid. -/
theorem placeLabels_occupancy (nodeOrder : List NodeId)
    (st : AList NodeId Node × AList GridPos Bool) (id : NodeId)
    (node : Node) (pos : GridPos)
    (hfind : st.1.find? id = some node) (hpos : node.Pos = some pos)
    (hempty : node.LabelAt = "") :
    ((∀ d ∈ allDirections, st.2.isKey (d.moveGridPos pos) = true) →
      placeStep nodeOrder st id = st) ∧
    (placeStep nodeOrder st id = st ∨
      ∃ d : direction, d ∈ allDirections ∧
        st.2.isKey (d.moveGridPos pos) = false ∧
        placeStep nodeOrder st id =
          (st.1.insert id { node with LabelAt := dirToString d },
           st.2.insert (d.moveGridPos pos) true)) ∧
    (∀ (topo : Topology) (linkOrder : List LinkId),
      PlaceLabels topo nodeOrder linkOrder =
        { topo with Nodes :=
            (nodeOrder.foldl (placeStep nodeOrder)
              (topo.Nodes, buildFillGrid topo nodeOrder linkOrder)).1 }) := by
  have hstep : placeStep nodeOrder st id =
      match allDirections.foldl (labelCandidateFold st.1 st.2 nodeOrder id pos)
          none with
      | none => st
      | some bd =>
        (st.1.insert id { node with LabelAt := dirToString bd.1 },
         st.2.insert (bd.1.moveGridPos pos) true) := by
    unfold placeStep
    rw [hfind]
    dsimp only
    rw [hpos]
    dsimp only
    rw [if_neg (by simp [hempty])]
  refine ⟨?_, ?_, fun topo linkOrder => rfl⟩
  · intro hall
    rw [hstep, candidateFold_occupied st.1 st.2 nodeOrder id pos
      allDirections none hall]
  · rcases hbest : allDirections.foldl
        (labelCandidateFold st.1 st.2 nodeOrder id pos) none with _ | bd
    · rw [hstep, hbest]
      exact Or.inl rfl
    · rcases candidateFold_some st.1 st.2 nodeOrder id pos
          allDirections none bd hbest with h | h
      · exact absurd h (by simp)
      · refine Or.inr ⟨bd.1, h.1, h.2, ?_⟩
        rw [hstep, hbest]

theorem placeLabels_occupancy_witness :
    (placeStep ["A", "B", "C", "D"] (topoCeg1.Nodes, fillAll8) "B" =
      (topoCeg1.Nodes, fillAll8)) ∧
    (placeStep ["A", "B", "C", "D"]
        (topoCeg1.Nodes, buildFillGrid topoCeg1 ["A", "B", "C", "D"] []) "B" =
        (topoCeg1.Nodes, buildFillGrid topoCeg1 ["A", "B", "C", "D"] []) ∨
      ∃ d : direction, d ∈ allDirections ∧
        (buildFillGrid topoCeg1 ["A", "B", "C", "D"] []).isKey
          (d.moveGridPos ⟨4, 0⟩) = false ∧
        placeStep ["A", "B", "C", "D"]
          (topoCeg1.Nodes, buildFillGrid topoCeg1 ["A", "B", "C", "D"] []) "B" =
          (topoCeg1.Nodes.insert "B"
            { mkNode "B" 4 0 "" none with LabelAt := dirToString d },
           (buildFillGrid topoCeg1 ["A", "B", "C", "D"] []).insert
             (d.moveGridPos ⟨4, 0⟩) true)) ∧
    (PlaceLabels topoCeg1 ["A", "B", "C", "D"] [] =
      { topoCeg1 with Nodes :=
          (["A", "B", "C", "D"].foldl (placeStep ["A", "B", "C", "D"])
            (topoCeg1.Nodes, buildFillGrid topoCeg1 ["A", "B", "C", "D"] [])).1 }) :=
  ⟨(placeLabels_occupancy ["A", "B", "C", "D"] (topoCeg1.Nodes, fillAll8) "B"
      (mkNode "B" 4 0 "" none) ⟨4, 0⟩ (by decide) rfl rfl).1 (by decide),
   (placeLabels_occupancy ["A", "B", "C", "D"]
      (topoCeg1.Nodes, buildFillGrid topoCeg1 ["A", "B", "C", "D"] []) "B"
      (mkNode "B" 4 0 "" none) ⟨4, 0⟩ (by decide) rfl rfl).2.1,
   (placeLabels_occupancy ["A", "B", "C", "D"]
      (topoCeg1.Nodes, buildFillGrid topoCeg1 ["A", "B", "C", "D"] []) "B"
      (mkNode "B" 4 0 "" none) ⟨4, 0⟩ (by decide) rfl rfl).2.2 topoCeg1 []⟩

/-- C1: the full pipeline is not deterministic across runs on identical
input.  On topoCeg1, a run whose node-map iteration happens in order
A,B,C,D records label direction "e" for node B, while a run whose
iteration happens in order D,A,B,C records "n": the result depends on
Go's unspecified map iteration order, so two runs on equal inputs can
differ. -/
theorem pipeline_order_dependent :
    labelAtOf (pipeline topoCeg1 ["A", "B", "C", "D"] [] (fun _ => 0)) "B" =
      some "e" ∧
    labelAtOf (pipeline topoCeg1 ["D", "A", "B", "C"] [] (fun _ => 0)) "B" =
      some "n" ∧
    (some "e" : Option String) ≠ some "n" :=
  ⟨by decide, by decide, by decide⟩

/-! ## The built path: via ordering and endpoints (C6, C8) -/

theorem viasFrom_zero (f : Finder) : f.viasFrom 0 = [] := by
  unfold Finder.viasFrom
  simp

theorem viasFrom_len (f : Finder) : f.viasFrom (f.vias.length : Int) = f.vias := by
  unfold Finder.viasFrom
  simp

theorem viasFrom_decrement (f : Finder) (k : Int) (p : GridPos)
    (h : f.getVia k = some p) :
    f.viasFrom k = p :: f.viasFrom (k - 1) := by
  unfold Finder.getVia at h
  split at h
  · simp at h
  · next hcond =>
    push_neg at hcond
    have hj := List.get?_eq_some.mp h
    obtain ⟨hjlt, hget⟩ := hj
    have hk1 : 1 ≤ k := by omega
    unfold Finder.viasFrom
    have hidx : ((f.vias.length : Int) - (k - 1)).toNat =
        ((f.vias.length : Int) - k).toNat + 1 := by omega
    rw [hidx]
    rw [List.drop_eq_getElem_cons hjlt]
    congr 1

theorem sublist_of_cons_ne {α : Type} {x : α} {l r : List α} {a : α}
    (h : List.Sublist (x :: l) (a :: r)) (hne : x ≠ a) : List.Sublist (x :: l) r := by
  cases h with
  | cons _ h => exact h
  | cons₂ h => exact absurd rfl hne

theorem chain'_drop {α : Type} {R : α → α → Prop} {l : List α}
    (h : List.Chain' R l) : ∀ n, List.Chain' R (l.drop n)
  | 0 => h
  | n + 1 => by
    rw [← List.tail_drop]
    exact (chain'_drop h n).tail

theorem viasFrom_chain (f : Finder) (hchain : List.Chain' (· ≠ ·) f.vias)
    (k : Int) : List.Chain' (· ≠ ·) (f.viasFrom k) := by
  unfold Finder.viasFrom
  exact chain'_drop hchain _

theorem viasFrom_step (f : Finder) (hchain : List.Chain' (· ≠ ·) f.vias)
    (c2 c : GridNode) (hg : GoodPair f c2 c) (rest : List GridPos)
    (hinv : List.Sublist (f.viasFrom c.via) (c.gridPos :: rest)) :
    List.Sublist (f.viasFrom c2.via) (c2.gridPos :: c.gridPos :: rest) := by
  rcases hg.2.2 with hsame | ⟨hdec, hvia⟩
  · rw [← hsame]
    exact hinv.cons _
  · have hexp := viasFrom_decrement f c2.via c.gridPos hvia
    rw [← hdec] at hexp
    rw [hexp]
    rcases hnil : f.viasFrom c.via with _ | ⟨v, vs⟩
    · exact (List.Sublist.cons₂ _ (List.nil_sublist _)).cons _
    · have hchain2 : List.Chain' (· ≠ ·) (c.gridPos :: v :: vs) := by
        rw [← hnil, ← hexp]
        exact viasFrom_chain f hchain c2.via
      have hne : v ≠ c.gridPos := Ne.symm (List.chain'_cons.mp hchain2).1
      have hsub : List.Sublist (v :: vs) rest :=
        sublist_of_cons_ne (hnil ▸ hinv) hne
      exact (List.Sublist.cons₂ _ hsub).cons _

theorem chain_fixLoop : ∀ (rest : List Vec2) (prev : Vec2),
    List.Chain' (· ≠ ·) (prev :: fixLoop prev rest) := by
  intro rest
  induction rest with
  | nil => intro prev; simp [fixLoop]
  | cons q rest' ih =>
    intro prev
    rw [fixLoop]
    split
    · next hq => exact List.chain'_cons.mpr ⟨Ne.symm hq, ih q⟩
    · exact ih prev

theorem getLast?_fixLoop : ∀ (rest : List Vec2) (prev : Vec2),
    (prev :: fixLoop prev rest).getLast? = (prev :: rest).getLast? := by
  intro rest
  induction rest with
  | nil => intro prev; rfl
  | cons q rest' ih =>
    intro prev
    rw [fixLoop]
    split
    · rw [List.getLast?_cons_cons, List.getLast?_cons_cons]
      exact ih q
    · next hq =>
      rw [not_ne_iff] at hq
      rw [List.getLast?_cons_cons, ← hq]
      exact ih q

theorem sublist_fixLoop : ∀ (rest : List Vec2) (prev : Vec2) (l : List Vec2),
    List.Chain' (· ≠ ·) (prev :: l) → List.Sublist l rest →
    List.Sublist l (fixLoop prev rest) := by
  intro rest
  induction rest with
  | nil =>
    intro prev l _ h
    rw [List.sublist_nil.mp h]
    exact List.nil_sublist _
  | cons q rest' ih =>
    intro prev l hch h
    rw [fixLoop]
    by_cases hq : q = prev
    · rw [if_neg (by simp [hq])]
      have hlr : List.Sublist l rest' := by
        cases l with
        | nil => exact List.nil_sublist _
        | cons x l' =>
          have hx : x ≠ q := by
            rw [hq]
            exact Ne.symm (List.chain'_cons.mp hch).1
          exact sublist_of_cons_ne h hx
      exact ih prev l hch hlr
    · rw [if_pos hq]
      cases l with
      | nil => exact List.nil_sublist _
      | cons x l' =>
        by_cases hx : x = q
        · rw [hx]
          refine List.Sublist.cons₂ _ (ih q l' ?_ ?_)
          · rw [← hx]
            exact (List.chain'_cons.mp hch).2
          · rw [hx] at h
            cases h with
            | cons a h2 => exact List.Sublist.trans (List.sublist_cons_self _ _) h2
            | cons₂ a h2 => exact h2
        · have hlr := sublist_of_cons_ne h hx
          have hch2 : List.Chain' (· ≠ ·) (q :: x :: l') :=
            List.chain'_cons.mpr ⟨Ne.symm hx, (List.chain'_cons.mp hch).2⟩
          exact (ih q (x :: l') hch2 hlr).cons _

theorem fix_head (p : Polyline) : (Polyline.fix p).head? = p.head? := by
  cases p with
  | nil => rfl
  | cons a rest => rfl

theorem fix_getLast (p : Polyline) : (Polyline.fix p).getLast? = p.getLast? := by
  cases p with
  | nil => rfl
  | cons a rest => exact getLast?_fixLoop rest a

theorem fix_chain (p : Polyline) : List.Chain' (· ≠ ·) (Polyline.fix p) := by
  cases p with
  | nil => simp [Polyline.fix]
  | cons a rest => exact chain_fixLoop rest a

theorem sublist_fix {l p : Polyline} (hch : List.Chain' (· ≠ ·) l)
    (h : List.Sublist l p) : List.Sublist l (Polyline.fix p) := by
  cases p with
  | nil =>
    rw [List.sublist_nil.mp h]
    exact List.nil_sublist _
  | cons a rest =>
    cases l with
    | nil => exact List.nil_sublist _
    | cons x l' =>
      by_cases hx : x = a
      · rw [hx]
        refine List.Sublist.cons₂ _ (sublist_fixLoop rest a l' ?_ ?_)
        · rw [← hx]
          exact hch
        · rw [hx] at h
          cases h with
          | cons a h2 => exact List.Sublist.trans (List.sublist_cons_self _ _) h2
          | cons₂ a h2 => exact h2
      · have hlr := sublist_of_cons_ne h hx
        have hch2 : List.Chain' (· ≠ ·) (a :: x :: l') :=
          List.chain'_cons.mpr ⟨Ne.symm hx, hch⟩
        exact (sublist_fixLoop rest a (x :: l') hch2 hlr).cons _

theorem buildLoop_spec (f : Finder) (starts : List GridNode)
    (cf : AList GridNode GridNode)
    (hGood : ∀ p ∈ cf, GoodPair f p.2 p.1)
    (hClosed : ∀ p ∈ cf, cf.isKey p.2 ∨ p.2 ∈ starts) :
    ∀ (fuel : Nat) (c : GridNode) (path₀ out : List GridPos),
      buildLoop cf (some c) path₀ fuel = Except.ok out →
      (cf.isKey c = true ∨ c ∈ starts) →
      (List.Chain' (· ≠ ·) f.vias →
        List.Sublist (f.viasFrom c.via) (c.gridPos :: path₀.reverse)) →
      ∃ s : GridNode, s ∈ starts ∧
        out.getLast? = some s.gridPos ∧
        out.head? = (path₀ ++ [c.gridPos]).head? ∧
        (List.Chain' (· ≠ ·) f.vias →
          List.Sublist (f.viasFrom s.via) out.reverse) := by
  intro fuel
  induction fuel with
  | zero =>
    intro c path₀ out h _ _
    simp [buildLoop] at h
  | succ fuel ih =>
    intro c path₀ out h hc hinv
    rw [buildLoop] at h
    rcases hfind : cf.find? c with _ | c2
    · rw [hfind] at h
      rw [buildLoop] at h
      injection h with h
      subst h
      have hcs : c ∈ starts := by
        rcases hc with hk | hs
        · rw [AList.isKey, hfind] at hk
          simp at hk
        · exact hs
      refine ⟨c, hcs, ?_, rfl, ?_⟩
      · exact List.getLast?_concat _
      · intro hchain
        rw [List.reverse_append]
        simpa using hinv hchain
    · rw [hfind] at h
      dsimp only at h
      split at h
      · simp at h
      · have hmem := AList.find?_some_mem hfind
        have hg := hGood (c, c2) hmem
        have hc2 := hClosed (c, c2) hmem
        have hinv2 : List.Chain' (· ≠ ·) f.vias →
            List.Sublist (f.viasFrom c2.via)
              (c2.gridPos :: (path₀ ++ [c.gridPos]).reverse) := by
          intro hchain
          have h12 := viasFrom_step f hchain c2 c hg path₀.reverse (hinv hchain)
          rw [List.reverse_append]
          simpa using h12
        obtain ⟨s, hs, hlast, hhead, hsub⟩ :=
          ih c2 (path₀ ++ [c.gridPos]) out h hc2 hinv2
        refine ⟨s, hs, hlast, ?_, hsub⟩
        rw [hhead]
        cases path₀ <;> simp

theorem run_accept_spec (f : Finder) (sps : List GridPos) (goal : GridPos)
    (vias : List GridPos) (rt : Route)
    (hw : 0 ≤ f.router.linkPenaltyWeight)
    (hok : (f.run sps goal vias).1 = Except.ok (some rt)) :
    ∃ pathG : List GridPos,
      rt.path = Polyline.fix (pathG.map GridPos.toVec) ∧
      (∃ sp ∈ sps, pathG.head? = some sp) ∧
      (∃ q : GridPos, pathG.getLast? = some q ∧
        (q = goal ∨ f.router.nodes.findD q "" = f.goalNode)) ∧
      (List.Chain' (· ≠ ·) vias → List.Sublist vias pathG) := by
  obtain ⟨current, st1, hInv, hvia0, haccept, hreach, hbuild⟩ :=
    (run_spec f sps goal vias hw).2 rt hok
  unfold Finder.buildRoute at hbuild
  dsimp only at hbuild
  rcases hfind : st1.cameFrom.find? current with _ | c
  · rw [hfind] at hbuild
    simp at hbuild
  · rw [hfind] at hbuild
    dsimp only at hbuild
    split at hbuild
    · simp at hbuild
    · next out hloop =>
      injection hbuild with hbuild
      injection hbuild with hbuild
      have hmem := AList.find?_some_mem hfind
      have hg := hInv.cfGood (current, c) hmem
      have hc := hInv.cfClosed (current, c) hmem
      have hinv0 : List.Sublist ((f.prepared goal vias).viasFrom current.via)
          (current.gridPos :: ([] : List GridPos)) := by
        have hz : (f.prepared goal vias).viasFrom current.via = [] := by
          rw [hvia0]
          exact viasFrom_zero _
        rw [hz]
        exact List.nil_sublist _
      have hinv1 : List.Chain' (· ≠ ·) vias →
          List.Sublist ((f.prepared goal vias).viasFrom c.via)
            (c.gridPos :: ([current.gridPos] : List GridPos).reverse) := by
        intro hchain
        simpa using viasFrom_step (f.prepared goal vias) hchain c current hg [] hinv0
      obtain ⟨s, hsmem, hlast, hhead, hsub⟩ :=
        buildLoop_spec (f.prepared goal vias) (startNodesOf sps vias)
          st1.cameFrom hInv.cfGood hInv.cfClosed
          (st1.cameFrom.length + 1) c [current.gridPos] out hloop hc hinv1
      obtain ⟨sp, hspmem, hspeq⟩ := List.mem_map.mp hsmem
      refine ⟨out.reverse, ?_, ?_, ?_, ?_⟩
      · rw [← hbuild]
      · refine ⟨sp, hspmem, ?_⟩
        rw [List.head?_reverse, hlast, ← hspeq]
      · refine ⟨current.gridPos, ?_, haccept⟩
        rw [List.getLast?_reverse, hhead]
        rfl
      · have hsvia : s.via = (vias.length : Int) := by
          rw [← hspeq]
        have hv : (f.prepared goal vias).viasFrom s.via = vias := by
          rw [hsvia]
          exact viasFrom_len _
        intro hchain
        rw [← hv]
        exact hsub hchain

theorem routeLink_accept_spec (r : LinkRouter) (id : LinkId) (link : Link)
    (rt : Route) (hw : 0 ≤ r.linkPenaltyWeight)
    (hlink : r.topo.GetLink id = some link)
    (hok : (r.routeLink id).1 = Except.ok (some rt)) :
    ∃ (start goalN : Node) (startPos goalPos : GridPos) (pathG : List GridPos),
      r.topo.GetNode link.From = some start ∧ start.Pos = some startPos ∧
      r.topo.GetNode link.To = some goalN ∧ goalN.Pos = some goalPos ∧
      rt.path = Polyline.fix (pathG.map GridPos.toVec) ∧
      (∃ sp ∈ startPositionsFor start startPos, pathG.head? = some sp) ∧
      (∃ q : GridPos, pathG.getLast? = some q ∧
        (q = goalPos ∨ r.nodes.findD q "" = link.To)) ∧
      (List.Chain' (· ≠ ·) link.Via → List.Sublist link.Via pathG) := by
  unfold LinkRouter.routeLink at hok
  rw [hlink] at hok
  dsimp only at hok
  rcases hstart : r.topo.GetNode link.From with _ | start
  · rw [hstart] at hok
    simp at hok
  · rw [hstart] at hok
    dsimp only at hok
    rcases hspos : start.Pos with _ | startPos
    · rw [hspos] at hok
      simp at hok
    · rw [hspos] at hok
      dsimp only at hok
      rcases hgoal : r.topo.GetNode link.To with _ | goalN
      · rw [hgoal] at hok
        simp at hok
      · rw [hgoal] at hok
        dsimp only at hok
        rcases hgpos : goalN.Pos with _ | goalPos
        · rw [hgpos] at hok
          simp at hok
        · rw [hgpos] at hok
          dsimp only at hok
          obtain ⟨pathG, h1, h2, h3, h4⟩ := run_accept_spec _ _ _ _ _ hw hok
          exact ⟨start, goalN, startPos, goalPos, pathG,
            rfl, hspos, rfl, hgpos, h1, h2, h3, h4⟩

/-- C6 (amended): for a link whose via waypoint list has no two equal
consecutive entries, a route returned by the routing search passes
through the via points in the given order — the via list, as grid-cell
vectors, is a sublist of the route's path.  The search enforces this
because a state's via count only decreases (by one exactly when an
expansion lands on the pending via) and the goal is accepted only at
via count 0. -/
theorem route_passes_vias (r : LinkRouter) (id : LinkId) (link : Link)
    (rt : Route) (hw : 0 ≤ r.linkPenaltyWeight)
    (hlink : r.topo.GetLink id = some link)
    (hchain : List.Chain' (· ≠ ·) link.Via)
    (hok : (r.routeLink id).1 = Except.ok (some rt)) :
    List.Sublist (link.Via.map GridPos.toVec) rt.path := by
  obtain ⟨start, goalN, startPos, goalPos, pathG, _, _, _, _, hfix, _, _, hsub⟩ :=
    routeLink_accept_spec r id link rt hw hlink hok
  rw [hfix]
  have hchain2 : List.Chain' (· ≠ ·) (link.Via.map GridPos.toVec) :=
    (List.chain'_map GridPos.toVec).mpr
      (hchain.imp (fun _ _ hab he => hab (toVec_injective he)))
  exact sublist_fix hchain2 ((hsub hchain).map _)

/-- C6: counterexample to the unconditional claim.  With the repeated
via list [(1,1), (1,1)] the search still returns a route, but its path
visits (1,1) only once (a turn in place satisfies the second via and
the duplicate point is removed as a zero-length segment), so the via
list is not a sublist of the path. -/
theorem route_vias_dup_ceg :
    (routerC6b.routeLink "L6").1 = Except.ok (some rtC6b) ∧
    rtC6b.path = [⟨0, 0⟩, ⟨1, 1⟩, ⟨2, 1⟩, ⟨3, 0⟩] ∧
    (routerC6b.topo.GetLink "L6").map Link.Via = some [⟨1, 1⟩, ⟨1, 1⟩] ∧
    ¬ List.Sublist (([⟨1, 1⟩, ⟨1, 1⟩] : List GridPos).map GridPos.toVec)
      rtC6b.path :=
  ⟨rfl, by decide, by decide, by decide⟩

theorem route_passes_vias_witness :
    0 ≤ routerCeg6.linkPenaltyWeight ∧
    routerCeg6.topo.GetLink "L" =
      some { Id := "L", From := "A", To := "B", Via := [⟨1, 1⟩], Route := [] } ∧
    List.Chain' (· ≠ ·) ([⟨1, 1⟩] : List GridPos) ∧
    (routerCeg6.routeLink "L").1 = Except.ok (some rtC6w) ∧
    List.Sublist (([⟨1, 1⟩] : List GridPos).map GridPos.toVec) rtC6w.path :=
  ⟨by decide, by decide, List.chain'_singleton _, rfl,
    route_passes_vias routerCeg6 "L"
      { Id := "L", From := "A", To := "B", Via := [⟨1, 1⟩], Route := [] }
      rtC6w (by decide) (by decide) (List.chain'_singleton _) rfl⟩

/-- C8 (amended): a route produced by the routing search starts at the
From node's position — for a multi-cell From node, at a point of its
rectangular footprint boundary — and ends on the To node's cell: at its
position or at a grid cell registered to the To node (any footprint
cell of a multi-cell To), and it contains no two consecutive equal
points.  A link whose Route was already non-empty on input is not
produced by the search and keeps its stored Route verbatim. -/
theorem route_endpoints (r : LinkRouter) (id : LinkId) (link : Link)
    (rt : Route) (hw : 0 ≤ r.linkPenaltyWeight)
    (hlink : r.topo.GetLink id = some link)
    (hok : (r.routeLink id).1 = Except.ok (some rt)) :
    (∃ (start : Node) (startPos sp : GridPos),
      r.topo.GetNode link.From = some start ∧ start.Pos = some startPos ∧
      sp ∈ startPositionsFor start startPos ∧
      rt.path.head? = some sp.toVec) ∧
    (∃ (goalN : Node) (goalPos q : GridPos),
      r.topo.GetNode link.To = some goalN ∧ goalN.Pos = some goalPos ∧
      rt.path.getLast? = some q.toVec ∧
      (q = goalPos ∨ r.nodes.findD q "" = link.To)) ∧
    List.Chain' (· ≠ ·) rt.path := by
  obtain ⟨start, goalN, startPos, goalPos, pathG, hstart, hspos, hgoal, hgpos,
    hfix, ⟨sp, hspmem, hsphead⟩, ⟨q, hqlast, hqdisj⟩, _⟩ :=
    routeLink_accept_spec r id link rt hw hlink hok
  refine ⟨⟨start, startPos, sp, hstart, hspos, hspmem, ?_⟩,
          ⟨goalN, goalPos, q, hgoal, hgpos, ?_, hqdisj⟩, ?_⟩
  · rw [hfix, fix_head, List.head?_map, hsphead]
    rfl
  · rw [hfix, fix_getLast, List.getLast?_map, hqlast]
    rfl
  · rw [hfix]
    exact fix_chain _

/-- C8: counterexample to the claim as stated.  After the full pipeline
on topoCeg8, link L (routed to the multi-cell node B centered at (3,0))
has the non-empty route [(0,0),(1,0),(2,0)] whose last point is the
footprint cell (2,0), not B's position, and the pre-routed link P keeps
its route [(9,9),(8,8)] whose first point is not the From node's
position (0,0). -/
theorem route_endpoints_ceg :
    pipeline topoCeg8 ["A", "B"] ["L", "P"] (fun _ => 0) = Except.ok tC8 ∧
    (tC8.GetNode "B").map Node.Pos = some (some ⟨3, 0⟩) ∧
    (tC8.GetLink "L").map (fun l => l.Route.getLast?) =
      some (some ⟨2, 0⟩) ∧
    ((⟨2, 0⟩ : Vec2) ≠ GridPos.toVec ⟨3, 0⟩) ∧
    (tC8.GetNode "A").map Node.Pos = some (some ⟨0, 0⟩) ∧
    (tC8.GetLink "P").map (fun l => l.Route.head?) =
      some (some ⟨9, 9⟩) ∧
    ((⟨9, 9⟩ : Vec2) ≠ GridPos.toVec ⟨0, 0⟩) :=
  ⟨rfl, by decide, by decide, by decide, by decide, by decide, by decide⟩

theorem route_endpoints_witness :
    0 ≤ routerCeg2.linkPenaltyWeight ∧
    routerCeg2.topo.GetLink "L" =
      some { Id := "L", From := "A", To := "B", Via := [], Route := [] } ∧
    (routerCeg2.routeLink "L").1 = Except.ok (some rtC8w) ∧
    ((∃ (start : Node) (startPos sp : GridPos),
      routerCeg2.topo.GetNode "A" = some start ∧ start.Pos = some startPos ∧
      sp ∈ startPositionsFor start startPos ∧
      rtC8w.path.head? = some sp.toVec) ∧
    (∃ (goalN : Node) (goalPos q : GridPos),
      routerCeg2.topo.GetNode "B" = some goalN ∧ goalN.Pos = some goalPos ∧
      rtC8w.path.getLast? = some q.toVec ∧
      (q = goalPos ∨ routerCeg2.nodes.findD q "" = "B")) ∧
    List.Chain' (· ≠ ·) rtC8w.path) :=
  ⟨by decide, by decide, rfl,
    route_endpoints routerCeg2 "L"
      { Id := "L", From := "A", To := "B", Via := [], Route := [] }
      rtC8w (by decide) (by decide) rfl⟩

end Raumata
